import Mathlib

/-!
# Verification of the fOS-WB resource-lifecycle core

Shallow embedding of the memory/tab-lifecycle subsystem of the fOS-WB
repository, together with proofs about its specification claims.

Embedded components (with their Rust sources):
* `TabHeap` — `crates/fos-memory/src/heap.rs`
* `JsHeap` — `crates/fos-js/src/heap.rs`
* `MemoryPressureLevel`, `TabManager` — `crates/fos-memory/src/rss_monitor.rs`
* `ColdStorage` (hibernate/hydrate, CRC32) — `crates/fos-memory/src/hibernation.rs`
* `GhostBitmap` — `crates/fos-memory/src/ghost.rs`
* worker loop — `crates/fos-tabs/src/worker.rs`

Machine integers are modelled as `Nat` with explicit reduction modulo
`2 ^ 64` exactly where the Rust code can wrap (`AtomicUsize::fetch_add`,
`AtomicUsize::fetch_sub`, release-mode `+`); `f32`/`f64` ratio arithmetic
is modelled as exact rational arithmetic, with the IEEE special cases
(division by zero giving inf/NaN) spelled out explicitly.
-/

namespace FosWB

/-- `2 ^ 64`, the modulus of `usize` arithmetic on the 64-bit targets the
browser builds for. -/
def W : Nat := 2 ^ 64

/-! ## TabHeap (`crates/fos-memory/src/heap.rs`)

The allocation accountant: an atomic `allocated` counter with a
soft/hard limit configuration.  The `live` field is a ghost component
recording the sizes of the outstanding (not yet deallocated)
allocations; the Rust code tracks these implicitly through the pointers
it hands out, and `deallocate` may only be called with a pointer (and
layout) obtained from a successful `allocate`. -/

/-- `HeapConfig` from `heap.rs` (the `eager_decommit` flag does not touch
the counter and is omitted). -/
structure HeapConfig where
  soft_limit : Nat
  hard_limit : Nat
deriving Repr, DecidableEq

/-- State of a `TabHeap`: the `allocated` atomic counter plus the ghost
multiset of live allocation sizes. -/
structure TabHeapSt where
  allocated : Nat
  live : List Nat
deriving Repr, DecidableEq

/-- A freshly created `TabHeap` (`TabHeap::new`): counter zero. -/
def TabHeapSt.init : TabHeapSt := { allocated := 0, live := [] }

/-- `TabHeap::allocate` from `heap.rs` lines 79–99, acting on the counter:
`fetch_add(size)` (wrapping), then if `current + size > hard_limit`
(release-mode wrapping add) the allocation is rejected and rolled back
with `fetch_sub(size)`; otherwise the allocation succeeds.  Returns
whether the allocation was accepted together with the new state. -/
def tabAllocate (cfg : HeapConfig) (s : TabHeapSt) (size : Nat) : Bool × TabHeapSt :=
  let current := s.allocated
  let s1 : TabHeapSt := { s with allocated := (current + size) % W }
  if (current + size) % W > cfg.hard_limit then
    (false, { s1 with allocated := (s1.allocated + (W - size % W)) % W })
  else
    (true, { s1 with live := size :: s1.live })

/-- The counter update of `TabHeap::deallocate` (`heap.rs` lines 101–109):
a bare `fetch_sub(size)`, which wraps modulo `2 ^ 64` on underflow. -/
def tabDeallocateCounter (allocated size : Nat) : Nat :=
  (allocated + (W - size % W)) % W

/-- One client operation on a `TabHeap`: request an allocation of `size`
bytes, or free a previously obtained allocation of size `size`.  A
`free` whose size is not among the live allocations corresponds to a
call with a pointer the heap never handed out, which the allocator API
forbids; it is modelled as a no-op. -/
inductive HeapOp where
  | alloc (size : Nat)
  | free (size : Nat)
deriving Repr, DecidableEq

/-- Step a `TabHeap` by one client operation. -/
def heapStep (cfg : HeapConfig) (s : TabHeapSt) : HeapOp → TabHeapSt
  | .alloc size => (tabAllocate cfg s size).2
  | .free size =>
    if size ∈ s.live then
      { allocated := tabDeallocateCounter s.allocated size, live := s.live.erase size }
    else s

/-- Run a sequence of client operations on a fresh `TabHeap`. -/
def runTabHeap (cfg : HeapConfig) (ops : List HeapOp) : TabHeapSt :=
  ops.foldl (heapStep cfg) TabHeapSt.init

/-- `Layout` guarantees `size ≤ isize::MAX`, so every size a Rust caller
can pass is below `2 ^ 63`. -/
def sizeOk (op : HeapOp) : Prop :=
  match op with
  | .alloc size => size < 2 ^ 63
  | .free size => size < 2 ^ 63

instance : DecidablePred sizeOk := by
  intro op; cases op <;> simp [sizeOk] <;> infer_instance

/-! ## JsHeap (`crates/fos-js/src/heap.rs`) -/

/-- `HeapLimits` from `fos-js/src/heap.rs`. -/
structure HeapLimits where
  max_size : Nat
  initial_size : Nat
  gc_threshold : Nat
  critical_threshold : Nat
deriving Repr, DecidableEq

/-- `HeapStats` from `fos-js/src/heap.rs` (the fields touched by
allocation bookkeeping). -/
structure HeapStats where
  allocated : Nat
  peak_allocated : Nat
  total_allocated : Nat
  gc_count : Nat
  gc_freed : Nat
  external_memory : Nat
deriving Repr, DecidableEq

/-- `HeapStats::default()`. -/
def HeapStats.default : HeapStats :=
  { allocated := 0, peak_allocated := 0, total_allocated := 0
    gc_count := 0, gc_freed := 0, external_memory := 0 }

/-- `HeapError` from `fos-js/src/heap.rs`. -/
inductive HeapError where
  | OutOfMemory
  | Frozen
  | AllocationTooLarge
deriving Repr, DecidableEq

/-- `JsHeap` from `fos-js/src/heap.rs`: limits, stats mirror, the atomic
`allocated` and `peak` counters, and the `frozen` flag. -/
structure JsHeap where
  tab_id : Nat
  limits : HeapLimits
  stats : HeapStats
  allocated : Nat
  peak : Nat
  frozen : Bool
deriving Repr, DecidableEq

/-- `JsHeap::new`. -/
def JsHeap.new (tab_id : Nat) (limits : HeapLimits) : JsHeap :=
  { tab_id := tab_id, limits := limits, stats := HeapStats.default
    allocated := 0, peak := 0, frozen := false }

/-- `HeapLimits::ultra_low()`. -/
def HeapLimits.ultra_low : HeapLimits :=
  { max_size := 16 * 1024 * 1024, initial_size := 1 * 1024 * 1024
    gc_threshold := 12 * 1024 * 1024, critical_threshold := 14 * 1024 * 1024 }

/-- `JsHeap::record_allocation` (`fos-js/src/heap.rs` lines 153–191).
If frozen, fails with `Frozen` and touches nothing.  Otherwise
`fetch_add(size)` (wrapping) gives `new_size`, the peak CAS loop leaves
`peak = max peak new_size`, the stats mirror is refreshed, and then —
with the counter already increased — the limit check runs: if
`new_size > max_size` the call returns `OutOfMemory` *without rolling
the counter back*. -/
def recordAllocation (h : JsHeap) (size : Nat) : Except HeapError Unit × JsHeap :=
  if h.frozen then (.error .Frozen, h)
  else
    let new_size := (h.allocated + size) % W
    let newPeak := max h.peak new_size
    let h1 : JsHeap :=
      { h with
        allocated := new_size
        peak := newPeak
        stats :=
          { h.stats with
            allocated := new_size
            peak_allocated := newPeak
            total_allocated := (h.stats.total_allocated + size) % W } }
    if new_size > h.limits.max_size then (.error .OutOfMemory, h1)
    else (.ok (), h1)

/-- `JsHeap::record_deallocation` (`fos-js/src/heap.rs` lines 193–197):
`let old = fetch_sub(size)` (the atomic wraps modulo `2 ^ 64` on
underflow), then `stats.allocated = old.saturating_sub(size)`. -/
def recordDeallocation (h : JsHeap) (size : Nat) : JsHeap :=
  let old := h.allocated
  { h with
    allocated := (old + (W - size % W)) % W
    stats := { h.stats with allocated := old - size } }

/-! ## IEEE binary floating point (shared by the `f64` and `f32` embeddings)

`as f64` / `as f32` conversions and float division/multiplication round
to nearest, ties to even.  A positive rational `q` is rounded at
precision `p` (53 significand bits for `f64`, 24 for `f32`) by writing
it as `m · 2 ^ (e - (p - 1))`, where `e` is the binary exponent of `q`
and `m` the round-to-nearest-even integer mantissa.  The exponents
arising in this development are far inside the normal range, so
overflow, underflow and subnormals cannot occur and are not modelled;
the division-by-zero inf/NaN cases are spelled out at the call sites. -/

/-- Round a rational to the nearest integer, ties to even. -/
def rne (x : ℚ) : ℤ :=
  if x - ⌊x⌋ < 1 / 2 then ⌊x⌋
  else if 1 / 2 < x - ⌊x⌋ then ⌊x⌋ + 1
  else if ⌊x⌋ % 2 = 0 then ⌊x⌋ else ⌊x⌋ + 1

/-- Binary-exponent search for `1 ≤ q`: the number of halvings until the
value drops below 2 (structurally recursive on a fuel bound; any fuel
with `q < 2 ^ fuel` is enough). -/
def expUp : Nat → ℚ → Nat
  | 0, _ => 0
  | fuel + 1, q => if q < 2 then 0 else expUp fuel (q / 2) + 1

/-- Binary-exponent search for `0 < q < 1`: the number of doublings
until the value reaches 1 (any fuel with `1 ≤ q * 2 ^ fuel` is
enough). -/
def expDown : Nat → ℚ → Nat
  | 0, _ => 0
  | fuel + 1, q => if 1 ≤ q then 0 else expDown fuel (q * 2) + 1

/-- The binary exponent of a positive rational: the unique `e` with
`2 ^ e ≤ q < 2 ^ (e + 1)`. -/
def qexp (q : ℚ) : ℤ :=
  if 1 ≤ q then (expUp q.num.natAbs q : ℤ) else -(expDown q.den q : ℤ)

/-- Round `q` to the nearest (ties-to-even) binary floating-point value
with a `p`-bit significand.  Nonpositive arguments only arise here as
exact zeros. -/
def rndF (p : Nat) (q : ℚ) : ℚ :=
  if q ≤ 0 then 0
  else (rne (q * 2 ^ ((p : ℤ) - 1 - qexp q)) : ℚ) * 2 ^ (qexp q - ((p : ℤ) - 1))

/-- `f64` rounding (53-bit significand). -/
def rnd64 (q : ℚ) : ℚ := rndF 53 q

/-- `f32` rounding (24-bit significand). -/
def rnd32 (q : ℚ) : ℚ := rndF 24 q

/-- The exact value of the `f64` literal `0.8` in the source
(`0.8` is not a binary float; the parser rounds it up). -/
def F64_0_8 : ℚ := 3602879701896397 / 2 ^ 52

/-- `expr as u32` on a nonnegative finite `f32` value: truncation toward
zero. -/
def f32ToU32 (q : ℚ) : Nat := (⌊q⌋).toNat

/-! ## Memory pressure (`crates/fos-memory/src/rss_monitor.rs`) -/

/-- `MemoryPressureLevel` from `rss_monitor.rs`. -/
inductive MemoryPressureLevel where
  | Low
  | Medium
  | High
  | Critical
deriving Repr, DecidableEq

/-- The derived `Ord` on `MemoryPressureLevel` (Rust `derive(PartialOrd, Ord)`
is declaration order). -/
def MemoryPressureLevel.toNat : MemoryPressureLevel → Nat
  | .Low => 0
  | .Medium => 1
  | .High => 2
  | .Critical => 3

/-- `<` on pressure levels, as derived in Rust. -/
def levelLt (a b : MemoryPressureLevel) : Bool :=
  a.toNat < b.toNat

/-- `MemoryPressureLevel::from_usage` (`rss_monitor.rs` lines 51–64):
`ratio = current_rss as f64 / threshold as f64`, then
`≥ 1.0 → Critical`, `≥ 0.8 → High`, `≥ 0.5 → Medium`, else `Low`.
Both `usize → f64` conversions and the division round to nearest
(`rnd64`); the literal `0.8` is the f64 value `F64_0_8`, while `1.0`
and `0.5` are exact.  For `threshold = 0` IEEE gives `inf` (`rss > 0`,
every comparison true → `Critical`) or `NaN` (`rss = 0`, every
comparison false → `Low`), which the zero branch spells out. -/
def fromUsage (current_rss threshold : Nat) : MemoryPressureLevel :=
  if threshold = 0 then
    if current_rss = 0 then .Low else .Critical
  else if rnd64 (rnd64 (current_rss : ℚ) / rnd64 (threshold : ℚ)) ≥ 1 then .Critical
  else if rnd64 (rnd64 (current_rss : ℚ) / rnd64 (threshold : ℚ)) ≥ F64_0_8 then .High
  else if rnd64 (rnd64 (current_rss : ℚ) / rnd64 (threshold : ℚ)) ≥ 1 / 2 then .Medium
  else .Low

/-! ## TabManager (`crates/fos-memory/src/rss_monitor.rs` lines 287–500)

The LRU list plus the `hibernated_count` cache.  `Instant` timestamps
are modelled as `Nat`; the manager operations that read `Instant::now()`
take the current time as an explicit argument. -/

/-- `TabLruEntry` from `rss_monitor.rs`. -/
structure TabLruEntry where
  tab_id : Nat
  last_accessed : Nat
  memory_usage : Nat
  is_hibernated : Bool
  is_active : Bool
deriving Repr, DecidableEq

/-- `HibernationReason` from `rss_monitor.rs`. -/
inductive HibernationReason where
  | MemoryPressure (level : MemoryPressureLevel)
  | Inactivity (idle_secs : Nat)
  | UserRequest
deriving Repr, DecidableEq

/-- `HibernationEvent` from `rss_monitor.rs`. -/
inductive HibernationEvent where
  | SuspendToDisk (tab_id : Nat) (reason : HibernationReason)
  | RestoreFromDisk (tab_id : Nat)
deriving Repr, DecidableEq

/-- `TabManager` state: the LRU vector and the hibernated-tab counter
(the `rss_monitor` handle is read-only for these operations; the
pressure it reports is passed explicitly to `checkPressure`). -/
structure TabManagerSt where
  tab_lru : List TabLruEntry
  hibernated_count : Nat
deriving Repr, DecidableEq

/-- `TabManager::new`. -/
def TabManagerSt.init : TabManagerSt := { tab_lru := [], hibernated_count := 0 }

/-- Update the first entry matching `tab_id`
(`self.tab_lru.iter_mut().find(|e| e.tab_id == tab_id)`). -/
def updateFirst (tab_id : Nat) (f : TabLruEntry → TabLruEntry) :
    List TabLruEntry → List TabLruEntry
  | [] => []
  | e :: rest =>
    if e.tab_id = tab_id then f e :: rest
    else e :: updateFirst tab_id f rest

/-- The comparison `|a, b| a.last_accessed.cmp(&b.last_accessed)` of
`sort_by_lru`, as a `≤`-style relation. -/
def lruLe (a b : TabLruEntry) : Prop :=
  a.last_accessed ≤ b.last_accessed

instance : DecidableRel lruLe := fun a b => Nat.decLe a.last_accessed b.last_accessed

instance : IsTotal TabLruEntry lruLe :=
  ⟨fun a b => Nat.le_total a.last_accessed b.last_accessed⟩

instance : IsTrans TabLruEntry lruLe :=
  ⟨fun _ _ _ h1 h2 => Nat.le_trans h1 h2⟩

/-- `TabManager::sort_by_lru`: a stable sort by `last_accessed`
(Rust `sort_by` is stable; a stable sort is uniquely determined by the
key order, so the stable `List.insertionSort` models it exactly). -/
def sortByLru (l : List TabLruEntry) : List TabLruEntry :=
  l.insertionSort lruLe

/-- `TabManager::register_tab` (pushes a fresh active entry). -/
def registerTab (now tab_id memory_usage : Nat) (s : TabManagerSt) : TabManagerSt :=
  { s with
    tab_lru := s.tab_lru ++
      [{ tab_id := tab_id, last_accessed := now, memory_usage := memory_usage
         is_hibernated := false, is_active := true }] }

/-- `TabManager::touch_tab`: bump `last_accessed` of the first matching
entry, then resort. -/
def touchTab (now tab_id : Nat) (s : TabManagerSt) : TabManagerSt :=
  { s with
    tab_lru := sortByLru (updateFirst tab_id (fun e => { e with last_accessed := now }) s.tab_lru) }

/-- `TabManager::update_memory`. -/
def updateMemory (tab_id memory_usage : Nat) (s : TabManagerSt) : TabManagerSt :=
  { s with
    tab_lru := updateFirst tab_id (fun e => { e with memory_usage := memory_usage }) s.tab_lru }

/-- Helper for `mark_hibernated`: walk to the first matching entry; if it
is not yet hibernated, set the flag, zero its memory, and report that
the counter must be bumped. -/
def markHibernatedGo (tab_id : Nat) : List TabLruEntry → List TabLruEntry × Bool
  | [] => ([], false)
  | e :: rest =>
    if e.tab_id = tab_id then
      if e.is_hibernated then (e :: rest, false)
      else ({ e with is_hibernated := true, memory_usage := 0 } :: rest, true)
    else
      let (r, b) := markHibernatedGo tab_id rest
      (e :: r, b)

/-- `TabManager::mark_hibernated` (`rss_monitor.rs` lines 371–380). -/
def markHibernated (tab_id : Nat) (s : TabManagerSt) : TabManagerSt :=
  let (l, bumped) := markHibernatedGo tab_id s.tab_lru
  { tab_lru := l, hibernated_count := s.hibernated_count + (if bumped then 1 else 0) }

/-- Helper for `mark_restored`: first matching entry; if hibernated,
clear the flag, restore memory usage, refresh `last_accessed`, and
report that the counter must be decremented. -/
def markRestoredGo (now tab_id memory_usage : Nat) :
    List TabLruEntry → List TabLruEntry × Bool
  | [] => ([], false)
  | e :: rest =>
    if e.tab_id = tab_id then
      if e.is_hibernated then
        ({ e with is_hibernated := false, memory_usage := memory_usage
                  last_accessed := now } :: rest, true)
      else (e :: rest, false)
    else
      let (r, b) := markRestoredGo now tab_id memory_usage rest
      (e :: r, b)

/-- `TabManager::mark_restored` (`rss_monitor.rs` lines 383–392);
the decrement is `saturating_sub`, which is `Nat` subtraction. -/
def markRestored (now tab_id memory_usage : Nat) (s : TabManagerSt) : TabManagerSt :=
  let (l, dropped) := markRestoredGo now tab_id memory_usage s.tab_lru
  { tab_lru := l, hibernated_count := s.hibernated_count - (if dropped then 1 else 0) }

/-- Helper for `remove_tab`: remove the first matching entry, reporting
`(found, wasHibernated)`. -/
def removeTabGo (tab_id : Nat) : List TabLruEntry → List TabLruEntry × Bool
  | [] => ([], false)
  | e :: rest =>
    if e.tab_id = tab_id then (rest, e.is_hibernated)
    else
      let (r, b) := removeTabGo tab_id rest
      (e :: r, b)

/-- `TabManager::remove_tab` (`rss_monitor.rs` lines 394–402);
the decrement is `saturating_sub`. -/
def removeTab (tab_id : Nat) (s : TabManagerSt) : TabManagerSt :=
  let (l, wasHib) := removeTabGo tab_id s.tab_lru
  { tab_lru := l, hibernated_count := s.hibernated_count - (if wasHib then 1 else 0) }

/-- Eligibility for hibernation inside `check_pressure`: not active and
not already hibernated. -/
def eligible (e : TabLruEntry) : Bool :=
  !e.is_active && !e.is_hibernated

/-- The per-pressure hibernation target of `check_pressure`
(`rss_monitor.rs` lines 417–425): Medium → 1, High → 2, Critical → all
background non-hibernated tabs. -/
def targetHibernate (p : MemoryPressureLevel) (l : List TabLruEntry) : Nat :=
  match p with
  | .Low => 0
  | .Medium => 1
  | .High => 2
  | .Critical => (l.filter eligible).length

/-- The event pushed for a chosen entry. -/
def suspendEvent (p : MemoryPressureLevel) (e : TabLruEntry) : HibernationEvent :=
  .SuspendToDisk e.tab_id (.MemoryPressure p)

/-- The `for entry in &self.tab_lru` loop of `check_pressure`
(`rss_monitor.rs` lines 427–444): break once the target is met, skip
active and hibernated entries, push a `SuspendToDisk` otherwise. -/
def suspendLoop (p : MemoryPressureLevel) (remaining : Nat) :
    List TabLruEntry → List HibernationEvent
  | [] => []
  | e :: rest =>
    if remaining = 0 then []
    else if e.is_active || e.is_hibernated then suspendLoop p remaining rest
    else suspendEvent p e :: suspendLoop p (remaining - 1) rest

/-- `TabManager::check_pressure` (`rss_monitor.rs` lines 404–454) with the
monitor's current pressure passed explicitly: below Medium return
nothing; otherwise sort by LRU and walk the loop. -/
def checkPressure (p : MemoryPressureLevel) (s : TabManagerSt) : List HibernationEvent :=
  if levelLt p .Medium then []
  else
    let sorted := sortByLru s.tab_lru
    suspendLoop p (targetHibernate p sorted) sorted

/-- `TabManagerStats` from `rss_monitor.rs` (the fields derived from the
LRU list; `current_rss`/`pressure_level` merely copy the monitor). -/
structure TabManagerStats where
  total_tabs : Nat
  active_tabs : Nat
  hibernated_tabs : Nat
  total_memory : Nat
deriving Repr, DecidableEq

/-- `TabManager::stats` (`rss_monitor.rs` lines 481–495). -/
def tmStats (s : TabManagerSt) : TabManagerStats :=
  { total_tabs := s.tab_lru.length
    active_tabs := (s.tab_lru.filter (fun e => !e.is_hibernated)).length
    hibernated_tabs := s.hibernated_count
    total_memory := ((s.tab_lru.filter (fun e => !e.is_hibernated)).map
      (fun e => e.memory_usage)).sum }

/-- The mutating `TabManager` operations named by the reachability claim. -/
inductive TmOp where
  | register (now tab_id memory_usage : Nat)
  | touch (now tab_id : Nat)
  | updateMem (tab_id memory_usage : Nat)
  | markHib (tab_id : Nat)
  | markRest (now tab_id memory_usage : Nat)
  | remove (tab_id : Nat)
deriving Repr, DecidableEq

/-- Apply one manager operation. -/
def tmStep (s : TabManagerSt) : TmOp → TabManagerSt
  | .register now id mem => registerTab now id mem s
  | .touch now id => touchTab now id s
  | .updateMem id mem => updateMemory id mem s
  | .markHib id => markHibernated id s
  | .markRest now id mem => markRestored now id mem s
  | .remove id => removeTab id s

/-- Run a sequence of manager operations from the initial state. -/
def runTm (ops : List TmOp) : TabManagerSt :=
  ops.foldl tmStep TabManagerSt.init

/-! ## Worker loop (`crates/fos-tabs/src/worker.rs`)

`run_worker_loop` receives messages from its queue one at a time.  A
`Shutdown` message breaks the loop before any processing.  Every other
message is processed inside `panic::catch_unwind`; a panic is converted
into exactly one `TabCrashed` report and the loop continues.

Whether processing the `i`-th message of the queue panics — and, if so,
after how many of its outgoing sends — is external behaviour (it depends
on the page content), so it is a parameter of the model.  Each worker is
a separate function application over its own queue: there is no shared
state between tabs in `run_worker_loop`. -/

/-- `TabMessage` from `crates/fos-tabs/src/message.rs` (the payloads that
matter to the loop). -/
inductive TabMessage where
  | navigate (url : List Nat)
  | executeScript (script : List Nat)
  | stop
  | reload
  | goBack
  | goForward
  | ping
  | shutdown
deriving Repr, DecidableEq

/-- `UiMessage` variants emitted by the worker side. -/
inductive UiMessage where
  | loadStarted (tab_id : Nat)
  | urlChanged (tab_id : Nat) (url : List Nat)
  | titleChanged (tab_id : Nat) (title : List Nat)
  | loadFinished (tab_id : Nat)
  | pong (tab_id : Nat)
  | tabCrashed (tab_id : Nat) (error : List Nat)
deriving Repr, DecidableEq

/-- `process_message` (`worker.rs` lines 91–164): the sequence of
`ui_tx.send` calls a non-panicking processing of `msg` performs. -/
def processMessage (tab_id : Nat) (msg : TabMessage) : List UiMessage :=
  match msg with
  | .navigate url =>
    [.loadStarted tab_id, .urlChanged tab_id url,
     .titleChanged tab_id url, .loadFinished tab_id]
  | .executeScript _ => []
  | .stop => []
  | .reload => []
  | .goBack => []
  | .goForward => []
  | .ping => [.pong tab_id]
  | .shutdown => []

/-- Outcome of the fault-isolation boundary around one message: either
processing runs to completion, or it panics with message `err` after
`sent` of its outgoing sends have already gone out. -/
inductive ProcOutcome where
  | ok
  | panic (err : List Nat) (sent : Nat)
deriving Repr, DecidableEq

/-- `run_worker_loop` (`worker.rs` lines 30–88) over the queued messages,
with `beh i` the fault behaviour of processing the `i`-th message:
`Shutdown` breaks immediately; a panic yields the partial sends followed
by exactly one `TabCrashed`; either way the loop continues with the next
message. -/
def runWorkerLoop (beh : Nat → ProcOutcome) (tab_id : Nat) :
    List TabMessage → Nat → List UiMessage
  | [], _ => []
  | msg :: rest, i =>
    if msg = .shutdown then []
    else
      match beh i with
      | .ok => processMessage tab_id msg ++ runWorkerLoop beh tab_id rest (i + 1)
      | .panic err sent =>
        ((processMessage tab_id msg).take sent ++ [.tabCrashed tab_id err]) ++
          runWorkerLoop beh tab_id rest (i + 1)

/-- Count the `TabCrashed` reports in a worker's output stream. -/
def countCrashed (out : List UiMessage) : Nat :=
  (out.filter (fun m => match m with | .tabCrashed _ _ => true | _ => false)).length

/-- All workers of a runtime, run independently: one queue and one fault
behaviour per tab.  There is no cross-tab state. -/
def runAllWorkers (tabs : List (Nat × List TabMessage × (Nat → ProcOutcome))) :
    List (Nat × List UiMessage) :=
  tabs.map (fun t => (t.1, runWorkerLoop t.2.2 t.1 t.2.1 0))

/-! ## GhostBitmap (`crates/fos-memory/src/ghost.rs`)

`calculate_thumbnail_size` works on `f32` values: the `u32 → f32`
conversions, the aspect division, the `320.0 / 180.0` target, and the
rescaling division/multiplication each round to nearest 24-bit
significand (`rnd32`); `as u32` truncates toward zero.  The IEEE
special cases for a zero height (`aspect = inf` for `w > 0`, giving the
width-constrained branch with `320 / inf = 0`; `aspect = NaN` for
`0 × 0`, every comparison false, `180 * NaN = NaN` truncating to 0) are
spelled out in the zero branch. -/

/-- `GhostError` from `ghost.rs`. -/
inductive GhostError where
  | ImageEncode (msg : List Nat)
  | ImageDecode (msg : List Nat)
  | NoBitmap
deriving Repr, DecidableEq

/-- The `f32` aspect ratio `width as f32 / height as f32` computed by
`calculate_thumbnail_size` (for `height ≠ 0`). -/
def f32Aspect (width height : Nat) : ℚ :=
  rnd32 (rnd32 (width : ℚ) / rnd32 (height : ℚ))

/-- The `f32` target aspect `THUMBNAIL_WIDTH as f32 / THUMBNAIL_HEIGHT
as f32 = 320.0 / 180.0`. -/
def TARGET32 : ℚ := rnd32 ((320 : ℚ) / 180)

/-- `GhostBitmap::calculate_thumbnail_size` (`ghost.rs` lines 150–165):
inputs whose `f32` aspect exceeds the `f32` 16:9 target are
width-constrained to 320 with height `((320.0 / aspect) as u32).max(1)`,
everything else is height-constrained to 180 with width
`((180.0 * aspect) as u32).max(1)`. -/
def calculateThumbnailSize (width height : Nat) : Nat × Nat :=
  if height = 0 then
    if width = 0 then (1, 180) else (320, 1)
  else if TARGET32 < f32Aspect width height then
    (320, max (f32ToU32 (rnd32 (320 / f32Aspect width height))) 1)
  else
    (max (f32ToU32 (rnd32 (180 * f32Aspect width height))) 1, 180)

/-- The part of `GhostBitmap` fixed by `from_rgba` that the claims talk
about (the PNG payload itself is produced by the external `image`
crate and is not interpreted by this repository). -/
structure GhostBitmapMeta where
  original_width : Nat
  original_height : Nat
  thumbnail_width : Nat
  thumbnail_height : Nat
deriving Repr, DecidableEq

/-- `GhostBitmap::from_rgba` (`ghost.rs` lines 56–101) up to the external
encoder: `ImageBuffer::from_raw` returns `None` — and `from_rgba`
returns `ImageEncode "Invalid pixel buffer"` — when the container is
not big enough for `width × height` RGBA pixels (the `image` crate's
documented contract); otherwise the thumbnail dimensions are computed
by `calculate_thumbnail_size`. -/
def fromRgba (pixels : List Nat) (width height : Nat) :
    Except GhostError GhostBitmapMeta :=
  if pixels.length < 4 * width * height then
    .error (.ImageEncode [])
  else
    let dims := calculateThumbnailSize width height
    .ok { original_width := width, original_height := height
          thumbnail_width := dims.1, thumbnail_height := dims.2 }

/-! ## ColdStorage (`crates/fos-memory/src/hibernation.rs`)

Bytes are modelled as `Nat` (values below 256 in every byte string the
code produces).  `bincode_serialize`/`bincode_deserialize` wrap
`serde_json`, an external deterministic self-describing encoding whose
only property the code relies on is exact round-tripping (spec §9:
"implementers may choose any deterministic binary encoding as long as
encode/decode round-trips exactly and checksum scope matches §4.4");
they are embedded as an executable length-prefixed encoding of
`TabSnapshot` with a verified decoder.  The `f32` scroll coordinates
are embedded as `F32Val`: a finite value (carried by its exact rational
value — every finite float round-trips through `serde_json` exactly) or
one of the non-finite values inf, negInf, NaN, all of which `serde_json`
*serializes as JSON `null`* and then *fails to deserialize* back into an
`f32`.  Zstd compression is external: `hibernate`/`hydrate` are
parameterised by the compressor and decompressor. -/

/-- An `f32` value as stored in `scroll_position`: finite (identified by
its exact rational value), or one of the non-finite values. -/
inductive F32Val where
  | finite (val : ℚ)
  | inf
  | negInf
  | nan
deriving Repr, DecidableEq

/-- Whether an `f32` value is finite (serde_json serializes non-finite
floats as `null`). -/
def F32Val.isFinite : F32Val → Bool
  | .finite _ => true
  | _ => false

/-- `FormField` from `hibernation.rs` (Rust `String`s as byte lists). -/
structure FormField where
  element_id : List Nat
  name : List Nat
  value : List Nat
  field_type : List Nat
deriving Repr, DecidableEq

/-- `TabSnapshot` from `hibernation.rs` lines 79–99. -/
structure TabSnapshot where
  tab_id : Nat
  url : List Nat
  title : List Nat
  scroll_position : F32Val × F32Val
  form_data : List FormField
  dom_snapshot : List Nat
  js_heap_snapshot : Option (List Nat)
  hibernated_at : Nat
  original_memory_bytes : Nat
deriving Repr, DecidableEq

/-- `HibernationError` from `hibernation.rs` (string payloads omitted). -/
inductive HibernationError where
  | Io
  | Compression
  | Serialization
  | InvalidFile
  | VersionMismatch (expected got : Nat)
  | TabNotFound (tab_id : Nat)
  | HydrationFailed
deriving Repr, DecidableEq

/-- Variable-length base-128 encoding, structurally recursive on a fuel
bound (any fuel above the value itself is enough). -/
def encodeNatFuel : Nat → Nat → List Nat
  | 0, _ => []
  | fuel + 1, n =>
    if n < 128 then [n]
    else (128 + n % 128) :: encodeNatFuel fuel (n / 128)

/-- Variable-length base-128 encoding of an unbounded natural: the
continuation bit is the high bit of each byte. -/
def encodeNat (n : Nat) : List Nat :=
  encodeNatFuel (n + 1) n

/-- Decoder for `encodeNat`; returns the value and the remaining input. -/
def decodeNat : List Nat → Option (Nat × List Nat)
  | [] => none
  | b :: rest =>
    if b < 128 then some (b, rest)
    else
      match decodeNat rest with
      | some (m, r) => some ((b - 128) + 128 * m, r)
      | none => none

/-- Length-prefixed byte string. -/
def encodeBytes (l : List Nat) : List Nat :=
  encodeNat l.length ++ l

/-- Decoder for `encodeBytes`. -/
def decodeBytes (l : List Nat) : Option (List Nat × List Nat) :=
  match decodeNat l with
  | some (n, r) => if n ≤ r.length then some (r.take n, r.drop n) else none
  | none => none

/-- A rational (a finite float value), as sign byte, numerator, and
denominator. -/
def encodeRat (q : ℚ) : List Nat :=
  (if q.num < 0 then 1 else 0) :: (encodeNat q.num.natAbs ++ encodeNat q.den)

/-- Decoder for `encodeRat`. -/
def decodeRat : List Nat → Option (ℚ × List Nat)
  | [] => none
  | b :: rest =>
    match decodeNat rest with
    | some (n, r1) =>
      match decodeNat r1 with
      | some (d, r2) =>
        some ((if b = 1 then -(n : ℚ) / (d : ℚ) else (n : ℚ) / (d : ℚ)), r2)
      | none => none
    | none => none

/-- An `f32` scroll coordinate as `serde_json` writes it: a finite value
is a JSON number (tag 0 followed by its exact rational value); every
non-finite value is written as JSON `null` (tag 1) — `serde_json`
serializes NaN and the infinities as `null` without error. -/
def encodeF32 : F32Val → List Nat
  | .finite q => 0 :: encodeRat q
  | .inf => [1]
  | .negInf => [1]
  | .nan => [1]

/-- Decoder for `encodeF32`: deserializing JSON `null` into an `f32`
fails (`invalid type: null, expected f32`), so only the number tag
succeeds. -/
def decodeF32 : List Nat → Option (F32Val × List Nat)
  | [] => none
  | b :: rest =>
    if b = 0 then
      match decodeRat rest with
      | some (q, r) => some (.finite q, r)
      | none => none
    else none

/-- One form field: its four strings in declaration order. -/
def encodeField (f : FormField) : List Nat :=
  encodeBytes f.element_id ++ encodeBytes f.name ++ encodeBytes f.value ++
    encodeBytes f.field_type

/-- Decoder for `encodeField`. -/
def decodeField (l : List Nat) : Option (FormField × List Nat) := do
  let (e, l) ← decodeBytes l
  let (n, l) ← decodeBytes l
  let (v, l) ← decodeBytes l
  let (t, l) ← decodeBytes l
  pure ({ element_id := e, name := n, value := v, field_type := t }, l)

/-- Decode a counted sequence with element decoder `f`. -/
def decodeCount (f : List Nat → Option (α × List Nat)) :
    Nat → List Nat → Option (List α × List Nat)
  | 0, l => some ([], l)
  | n + 1, l =>
    match f l with
    | some (a, r) =>
      match decodeCount f n r with
      | some (as, r2) => some (a :: as, r2)
      | none => none
    | none => none

/-- An optional byte string: presence tag plus payload. -/
def encodeOptBytes : Option (List Nat) → List Nat
  | none => [0]
  | some b => 1 :: encodeBytes b

/-- Decoder for `encodeOptBytes`. -/
def decodeOptBytes : List Nat → Option (Option (List Nat) × List Nat)
  | [] => none
  | b :: rest =>
    if b = 1 then
      match decodeBytes rest with
      | some (v, r) => some (some v, r)
      | none => none
    else some (none, rest)

/-- `bincode_serialize` for a `TabSnapshot` (`hibernation.rs` lines
452–457): the fields in declaration order under the deterministic
round-tripping encoding. -/
def encodeSnapshot (s : TabSnapshot) : List Nat :=
  encodeNat s.tab_id ++ encodeBytes s.url ++ encodeBytes s.title ++
    encodeF32 s.scroll_position.1 ++ encodeF32 s.scroll_position.2 ++
    encodeNat s.form_data.length ++ (s.form_data.map encodeField).flatten ++
    encodeBytes s.dom_snapshot ++ encodeOptBytes s.js_heap_snapshot ++
    encodeNat s.hibernated_at ++ encodeNat s.original_memory_bytes

/-- Field-by-field decoder for `encodeSnapshot`. -/
def decodeSnapshot (l : List Nat) : Option (TabSnapshot × List Nat) := do
  let (tab_id, l) ← decodeNat l
  let (url, l) ← decodeBytes l
  let (title, l) ← decodeBytes l
  let (sx, l) ← decodeF32 l
  let (sy, l) ← decodeF32 l
  let (nf, l) ← decodeNat l
  let (fs, l) ← decodeCount decodeField nf l
  let (dom, l) ← decodeBytes l
  let (js, l) ← decodeOptBytes l
  let (hib, l) ← decodeNat l
  let (omb, l) ← decodeNat l
  pure ({ tab_id := tab_id, url := url, title := title
          scroll_position := (sx, sy), form_data := fs, dom_snapshot := dom
          js_heap_snapshot := js, hibernated_at := hib
          original_memory_bytes := omb }, l)

/-- `bincode_deserialize` (`hibernation.rs` lines 460–463): the whole
buffer must be consumed. -/
def decodeSnapshotFull (l : List Nat) : Option TabSnapshot :=
  match decodeSnapshot l with
  | some (s, []) => some s
  | _ => none

/-! ### CRC32 (`crc32_checksum`, `hibernation.rs` lines 437–450) -/

/-- One LFSR round of the CRC32 loop: `if crc & 1 { (crc >> 1) ^ 0xEDB88320 }
else { crc >> 1 }`. -/
def crc32Round (crc : Nat) : Nat :=
  if crc % 2 = 1 then (crc / 2) ^^^ 0xEDB88320 else crc / 2

/-- `k` rounds of `crc32Round`. -/
def crc32Iter : Nat → Nat → Nat
  | 0, crc => crc
  | k + 1, crc => crc32Iter k (crc32Round crc)

/-- The per-byte step of `crc32_checksum`: `crc ^= byte` then eight
rounds. -/
def crc32Byte (crc byte : Nat) : Nat :=
  crc32Iter 8 (crc ^^^ byte)

/-- `crc32_checksum` (`hibernation.rs` lines 437–450): fold the per-byte
step from `0xFFFFFFFF`, then complement (`!crc` on `u32` is xor with
`0xFFFFFFFF`). -/
def crc32_checksum (data : List Nat) : Nat :=
  (data.foldl crc32Byte 0xFFFFFFFF) ^^^ 0xFFFFFFFF

/-! ### The hibernation file -/

/-- The magic bytes `b"FOSWB_HB"`. -/
def MAGIC_BYTES : List Nat := [0x46, 0x4F, 0x53, 0x57, 0x42, 0x5F, 0x48, 0x42]

/-- `FORMAT_VERSION`. -/
def FORMAT_VERSION : Nat := 1

/-- `HibernationHeader` from `hibernation.rs` lines 111–119. -/
structure HibernationHeader where
  magic : List Nat
  version : Nat
  tab_id : Nat
  uncompressed_size : Nat
  compressed_size : Nat
  checksum : Nat
deriving Repr, DecidableEq

/-- `n` as `k` little-endian bytes (the `to_le_bytes` writes of
`HibernationHeader::write_to`). -/
def leBytes : Nat → Nat → List Nat
  | 0, _ => []
  | k + 1, n => (n % 256) :: leBytes k (n / 256)

/-- `HibernationHeader::write_to` (`hibernation.rs` lines 122–130):
magic, version (4 bytes LE), tab_id (8), uncompressed_size (8),
compressed_size (8), checksum (4). -/
def headerBytes (h : HibernationHeader) : List Nat :=
  h.magic ++ leBytes 4 h.version ++ leBytes 8 h.tab_id ++
    leBytes 8 h.uncompressed_size ++ leBytes 8 h.compressed_size ++
    leBytes 4 h.checksum

/-- The header `hibernate` writes for snapshot `S` whose serialized form
compresses to `payload` (`hibernation.rs` lines 227–234): the checksum
is `crc32_checksum` of the *uncompressed* serialized buffer. -/
def mkHeader (S : TabSnapshot) (payload : List Nat) : HibernationHeader :=
  { magic := MAGIC_BYTES, version := FORMAT_VERSION, tab_id := S.tab_id
    uncompressed_size := (encodeSnapshot S).length
    compressed_size := payload.length
    checksum := crc32_checksum (encodeSnapshot S) }

/-- What `hibernate` stores for snapshot `S` with compressor `compress`:
the header and the compressed payload. -/
def hibernateFile (compress : List Nat → List Nat) (S : TabSnapshot) :
    HibernationHeader × List Nat :=
  (mkHeader S (compress (encodeSnapshot S)), compress (encodeSnapshot S))

/-- `ColdStorage::hydrate` (`hibernation.rs` lines 264–320) on a stored
file, with decompressor `decompress`: validate magic, then version,
then decompress, then compare `crc32_checksum` of the decompressed
bytes against the header, and only then deserialize. -/
def hydrateFile (decompress : List Nat → Option (List Nat))
    (file : HibernationHeader × List Nat) : Except HibernationError TabSnapshot :=
  let hdr := file.1
  if hdr.magic ≠ MAGIC_BYTES then .error .InvalidFile
  else if hdr.version ≠ FORMAT_VERSION then
    .error (.VersionMismatch FORMAT_VERSION hdr.version)
  else
    match decompress file.2 with
    | none => .error .Compression
    | some decompressed =>
      if crc32_checksum decompressed ≠ hdr.checksum then .error .InvalidFile
      else
        match decodeSnapshotFull decompressed with
        | some s => .ok s
        | none => .error .Serialization

/-- The cold-storage directory: one optional file per tab id. -/
def ColdStore : Type := Nat → Option (HibernationHeader × List Nat)

/-- `ColdStorage::hibernate` writes (atomically, per the claims under
scrutiny — see the file-system trace below for what actually happens)
the file for `S.tab_id`. -/
def hibernate (compress : List Nat → List Nat) (st : ColdStore) (S : TabSnapshot) :
    ColdStore :=
  fun id => if id = S.tab_id then some (hibernateFile compress S) else st id

/-- `ColdStorage::hydrate` by tab id: `TabNotFound` when no file exists. -/
def hydrate (decompress : List Nat → Option (List Nat)) (st : ColdStore)
    (tab_id : Nat) : Except HibernationError TabSnapshot :=
  match st tab_id with
  | none => .error (.TabNotFound tab_id)
  | some file => hydrateFile decompress file

/-! ### The file-system trace of `hibernate`

For the crash-atomicity claim the byte-level I/O of
`ColdStorage::hibernate` (`hibernation.rs` lines 192–261) is modelled as
a sequence of primitive file-system operations on the two paths it
touches, in program order:

1. `File::create(&temp_path)` and the zstd-encoded writes — create
   and fill the temp file;
2. `File::create(&file_path)` — create (truncate) the *final* path;
3. `header.write_to(&mut final_writer)` — append the header bytes;
4. `io::copy(&mut temp_reader, &mut final_writer)` — append the
   compressed payload;
5. `fs::remove_file(&temp_path)`.

There is no rename of the temp file onto the final path. -/

/-- Contents of the two paths `hibernate` touches (`none` = absent). -/
structure FsState where
  finalContent : Option (List Nat)
  tempContent : Option (List Nat)
deriving Repr, DecidableEq

/-- Primitive file-system operations used by `hibernate`. -/
inductive FsOp where
  | createTemp
  | appendTemp (bytes : List Nat)
  | createFinal
  | appendFinal (bytes : List Nat)
  | removeTemp
deriving Repr, DecidableEq

/-- Effect of one file-system operation (`create` truncates). -/
def fsStep (s : FsState) : FsOp → FsState
  | .createTemp => { s with tempContent := some [] }
  | .appendTemp b => { s with tempContent := some ((s.tempContent.getD []) ++ b) }
  | .createFinal => { s with finalContent := some [] }
  | .appendFinal b => { s with finalContent := some ((s.finalContent.getD []) ++ b) }
  | .removeTemp => { s with tempContent := none }

/-- The file-system operations `ColdStorage::hibernate` performs for
snapshot `S`, in program order. -/
def hibernateTrace (compress : List Nat → List Nat) (S : TabSnapshot) : List FsOp :=
  let payload := compress (encodeSnapshot S)
  [.createTemp, .appendTemp payload, .createFinal,
   .appendFinal (headerBytes (mkHeader S payload)), .appendFinal payload,
   .removeTemp]

/-- Run a prefix of the trace (a crash after `k` operations). -/
def fsRun (s : FsState) (ops : List FsOp) : FsState :=
  ops.foldl fsStep s

/-- The complete, well-formed on-disk file for snapshot `S`:
header followed by the compressed payload. -/
def completeFileBytes (compress : List Nat → List Nat) (S : TabSnapshot) : List Nat :=
  headerBytes (mkHeader S (compress (encodeSnapshot S))) ++ compress (encodeSnapshot S)

/-- The round-trip claim's distinguished instance: empty form data,
empty DOM snapshot, no JS heap snapshot, finite scroll. -/
def testSnapshot : TabSnapshot :=
  { tab_id := 3, url := [104, 105], title := []
    scroll_position := (.finite 0, .finite 0)
    form_data := [], dom_snapshot := [], js_heap_snapshot := none
    hibernated_at := 0, original_memory_bytes := 0 }

/-- A snapshot with a NaN scroll coordinate: `serde_json` hibernates it
(the NaN becomes JSON `null`) but hydration cannot deserialize it. -/
def badSnapshot : TabSnapshot :=
  { testSnapshot with scroll_position := (.nan, .finite 0) }

/-- First of the two CRC32-colliding snapshots: `testSnapshot` with a
five-byte all-zero DOM snapshot. -/
def snapA : TabSnapshot :=
  { testSnapshot with dom_snapshot := [0, 0, 0, 0, 0] }

/-- Second colliding snapshot: the same five DOM bytes replaced by
`[1, 150, 48, 7, 119]`, chosen so that the CRC32 of the serialized
snapshot equals `snapA`'s (CRC32 is a 32-bit linear check, so four free
bytes suffice to cancel any change). -/
def snapB : TabSnapshot :=
  { testSnapshot with dom_snapshot := [1, 150, 48, 7, 119] }

/-- A valid (exactly round-tripping) compression scheme under which the
stored payloads of `snapA` and `snapB` differ in a single byte: each of
the two snapshots compresses to one tagged byte, everything else is
stored verbatim behind an escape byte. -/
def cexCompress (x : List Nat) : List Nat :=
  if x = encodeSnapshot snapA then [0]
  else if x = encodeSnapshot snapB then [1]
  else 2 :: x

/-- The decompressor inverting `cexCompress`. -/
def cexDecompress : List Nat → Option (List Nat)
  | [0] => some (encodeSnapshot snapA)
  | [1] => some (encodeSnapshot snapB)
  | 2 :: x => some x
  | _ => none

/-! ## Theorems -/

/-! ### Round-to-nearest-even: basic properties -/

theorem rne_ge (x : ℚ) : x - 1 / 2 ≤ (rne x : ℚ) := by
  have hf := Int.floor_le x
  have hf2 := Int.lt_floor_add_one x
  unfold rne
  split_ifs with h1 h2 h3 <;> push_cast <;> linarith

theorem rne_le (x : ℚ) : (rne x : ℚ) ≤ x + 1 / 2 := by
  have hf := Int.floor_le x
  have hf2 := Int.lt_floor_add_one x
  unfold rne
  split_ifs with h1 h2 h3 <;> push_cast <;> linarith

theorem rne_intCast (k : ℤ) : rne (k : ℚ) = k := by
  unfold rne
  rw [Int.floor_intCast]
  norm_num

theorem rne_mono {x y : ℚ} (h : x ≤ y) : rne x ≤ rne y := by
  have hfm : ⌊x⌋ ≤ ⌊y⌋ := Int.floor_mono h
  rcases lt_or_eq_of_le hfm with hlt | heq
  · have hx1 : rne x ≤ ⌊x⌋ + 1 := by
      unfold rne
      split_ifs <;> omega
    have hy1 : ⌊y⌋ ≤ rne y := by
      unfold rne
      split_ifs <;> omega
    omega
  · have hxy : x - (⌊x⌋ : ℚ) ≤ y - (⌊x⌋ : ℚ) := by linarith
    unfold rne
    rw [← heq]
    split_ifs <;> first | omega | (exfalso; linarith)

theorem rne_le_int (x : ℚ) (K : ℤ) (h : x < (K : ℚ) + 1 / 2) : rne x ≤ K := by
  have h1 := rne_le x
  have hlt : (rne x : ℚ) < (K : ℚ) + 1 := by linarith
  have hz : rne x < K + 1 := by exact_mod_cast hlt
  omega

theorem rne_ge_int (x : ℚ) (K : ℤ) (h : (K : ℚ) - 1 / 2 < x) : K ≤ rne x := by
  have h1 := rne_ge x
  have hlt : (K : ℚ) - 1 < (rne x : ℚ) := by linarith
  have hz : K - 1 < rne x := by exact_mod_cast hlt
  omega

/-! ### The binary exponent -/

theorem expUp_spec : ∀ (fuel : Nat) (q : ℚ), 1 ≤ q → q < 2 ^ fuel →
    (2 : ℚ) ^ expUp fuel q ≤ q ∧ q < 2 ^ (expUp fuel q + 1) := by
  intro fuel
  induction fuel with
  | zero =>
    intro q h1 h2
    rw [pow_zero] at h2
    exact absurd h1 (not_le.mpr h2)
  | succ f ih =>
    intro q h1 h2
    by_cases hq2 : q < 2
    · simp only [expUp, if_pos hq2]
      exact ⟨by simpa using h1, by simpa using hq2⟩
    · have hq2' : (2 : ℚ) ≤ q := not_lt.mp hq2
      have hhalf1 : (1 : ℚ) ≤ q / 2 := by
        rw [le_div_iff₀ (by norm_num : (0 : ℚ) < 2)]
        linarith
      have hhalf2 : q / 2 < 2 ^ f := by
        rw [div_lt_iff₀ (by norm_num : (0 : ℚ) < 2)]
        calc q < 2 ^ (f + 1) := h2
          _ = 2 ^ f * 2 := by ring
      have hrec := ih (q / 2) hhalf1 hhalf2
      simp only [expUp, if_neg hq2]
      constructor
      · rw [pow_succ]
        have h := hrec.1
        rw [le_div_iff₀ (by norm_num : (0 : ℚ) < 2)] at h
        exact h
      · have h := hrec.2
        rw [div_lt_iff₀ (by norm_num : (0 : ℚ) < 2)] at h
        calc q < 2 ^ (expUp f (q / 2) + 1) * 2 := h
          _ = 2 ^ (expUp f (q / 2) + 1 + 1) := by ring

theorem expDown_spec : ∀ (fuel : Nat) (q : ℚ), 0 < q → q < 1 → 1 ≤ q * 2 ^ fuel →
    1 ≤ q * 2 ^ expDown fuel q ∧ q * 2 ^ expDown fuel q < 2 := by
  intro fuel
  induction fuel with
  | zero =>
    intro q h0 h1 hf
    rw [pow_zero, mul_one] at hf
    exact absurd hf (not_le.mpr h1)
  | succ f ih =>
    intro q h0 h1 hf
    simp only [expDown, if_neg (not_le.mpr h1)]
    by_cases h2 : 1 ≤ q * 2
    · have hz : expDown f (q * 2) = 0 := by
        cases f with
        | zero => rfl
        | succ g => simp [expDown, h2]
      rw [hz]
      constructor
      · simpa using h2
      · rw [pow_one]
        linarith
    · have hfuel2 : 1 ≤ q * 2 * 2 ^ f := by
        have heq : q * 2 ^ (f + 1) = q * 2 * 2 ^ f := by ring
        rw [heq] at hf
        exact hf
      have hrec := ih (q * 2) (by linarith) (by linarith [not_le.mp h2]) hfuel2
      have heq : q * 2 ^ (expDown f (q * 2) + 1) = q * 2 * 2 ^ expDown f (q * 2) := by
        ring
      rw [heq]
      exact hrec

theorem qexp_spec (q : ℚ) (hq : 0 < q) :
    (2 : ℚ) ^ qexp q ≤ q ∧ q < 2 ^ (qexp q + 1) := by
  have hden : ((q.den : ℚ)) ≠ 0 := by
    exact_mod_cast q.den_nz
  have hdenq : (0 : ℚ) < (q.den : ℚ) := by
    exact_mod_cast q.den_pos
  have hnum := Rat.num_div_den q
  rw [div_eq_iff hden] at hnum
  have hnumpos : 0 < q.num := Rat.num_pos.mpr hq
  unfold qexp
  split_ifs with h1
  · have hqle : q ≤ (q.num : ℚ) := by
      rw [hnum]
      have h1den : (1 : ℚ) ≤ (q.den : ℚ) := by
        exact_mod_cast q.den_pos
      nlinarith
    have hnatabs : ((q.num.natAbs : ℚ)) = (q.num : ℚ) := by
      rw [Int.cast_natAbs]
      exact_mod_cast abs_of_pos hnumpos
    have hfuel : q < 2 ^ q.num.natAbs := by
      calc q ≤ (q.num : ℚ) := hqle
        _ = (q.num.natAbs : ℚ) := hnatabs.symm
        _ < 2 ^ q.num.natAbs := by exact_mod_cast Nat.lt_two_pow q.num.natAbs
    have hspec := expUp_spec q.num.natAbs q h1 hfuel
    constructor
    · rw [zpow_natCast]
      exact hspec.1
    · have hcast : ((expUp q.num.natAbs q : ℤ) + 1) =
          ((expUp q.num.natAbs q + 1 : ℕ) : ℤ) := by push_cast; ring
      rw [hcast, zpow_natCast]
      exact hspec.2
  · have hlt1 : q < 1 := not_le.mp h1
    have h1num : (1 : ℚ) ≤ (q.num : ℚ) := by exact_mod_cast hnumpos
    have hden2 : (q.den : ℚ) ≤ 2 ^ q.den := by
      exact_mod_cast (Nat.lt_two_pow q.den).le
    have hfuel : 1 ≤ q * 2 ^ q.den := by
      have hkey : (q.den : ℚ) ≤ (q.num : ℚ) * 2 ^ q.den := by
        calc (q.den : ℚ) ≤ 2 ^ q.den := hden2
          _ ≤ (q.num : ℚ) * 2 ^ q.den := le_mul_of_one_le_left (by positivity) h1num
      have hrw : q * 2 ^ q.den = (q.num : ℚ) * 2 ^ q.den / q.den := by
        rw [eq_div_iff hden]
        calc q * 2 ^ q.den * q.den = q * q.den * 2 ^ q.den := by ring
          _ = (q.num : ℚ) * 2 ^ q.den := by rw [← hnum]
      rw [hrw, le_div_iff₀ hdenq, one_mul]
      exact hkey
    have hspec := expDown_spec q.den q hq hlt1 hfuel
    constructor
    · rw [zpow_neg, zpow_natCast, inv_le_iff_one_le_mul₀ (by positivity)]
      exact hspec.1
    · have h2k : (2 : ℚ) ^ (-(expDown q.den q : ℤ) + 1) = 2 / 2 ^ expDown q.den q := by
        rw [zpow_add₀ (two_ne_zero), zpow_neg, zpow_natCast, zpow_one]
        ring
      rw [h2k, lt_div_iff₀ (by positivity)]
      linarith [hspec.2]

theorem qexp_ge {q : ℚ} (hq : 0 < q) (k : ℤ) (hk : (2 : ℚ) ^ k ≤ q) :
    k ≤ qexp q := by
  obtain ⟨h1, h2⟩ := qexp_spec q hq
  by_contra hcon
  push_neg at hcon
  have hle : (2 : ℚ) ^ (qexp q + 1) ≤ 2 ^ k :=
    zpow_le_zpow_right₀ (by norm_num) (by omega)
  linarith

theorem qexp_lt {q : ℚ} (hq : 0 < q) (k : ℤ) (hk : q < (2 : ℚ) ^ k) :
    qexp q < k := by
  obtain ⟨h1, h2⟩ := qexp_spec q hq
  by_contra hcon
  push_neg at hcon
  have hle : (2 : ℚ) ^ k ≤ 2 ^ qexp q :=
    zpow_le_zpow_right₀ (by norm_num) hcon
  linarith

theorem qexp_unique (q : ℚ) (hq : 0 < q) (k : ℤ) (hk1 : (2 : ℚ) ^ k ≤ q)
    (hk2 : q < 2 ^ (k + 1)) : qexp q = k := by
  have ha := qexp_ge hq k hk1
  have hb := qexp_lt hq (k + 1) hk2
  omega

/-! ### Rounding to p significant bits -/

theorem castPow (p : Nat) : ((2 ^ p : ℤ) : ℚ) = 2 ^ (p : ℤ) := by
  rw [zpow_natCast]
  norm_cast

theorem castPowSubOne (p : Nat) (hp : 1 ≤ p) :
    ((2 ^ (p - 1) : ℤ) : ℚ) = 2 ^ ((p : ℤ) - 1) := by
  have h : ((p : ℤ) - 1) = ((p - 1 : ℕ) : ℤ) := by omega
  rw [h, zpow_natCast]
  norm_cast

theorem rndF_eq (p : Nat) (q : ℚ) (hq : 0 < q) :
    rndF p q = (rne (q * 2 ^ ((p : ℤ) - 1 - qexp q)) : ℚ) *
      2 ^ (qexp q - ((p : ℤ) - 1)) := by
  unfold rndF
  rw [if_neg (not_le.mpr hq)]

theorem rndM_bounds (p : Nat) (q : ℚ) (hq : 0 < q) :
    (2 : ℚ) ^ ((p : ℤ) - 1) ≤ q * 2 ^ ((p : ℤ) - 1 - qexp q) ∧
      q * 2 ^ ((p : ℤ) - 1 - qexp q) < 2 ^ (p : ℤ) := by
  obtain ⟨h1, h2⟩ := qexp_spec q hq
  have hpow : (0 : ℚ) < 2 ^ ((p : ℤ) - 1 - qexp q) := zpow_pos (by norm_num) _
  constructor
  · calc (2 : ℚ) ^ ((p : ℤ) - 1)
        = 2 ^ qexp q * 2 ^ ((p : ℤ) - 1 - qexp q) := by
          rw [← zpow_add₀ (two_ne_zero : (2 : ℚ) ≠ 0)]
          congr 1
          ring
      _ ≤ q * 2 ^ ((p : ℤ) - 1 - qexp q) :=
          mul_le_mul_of_nonneg_right h1 hpow.le
  · calc q * 2 ^ ((p : ℤ) - 1 - qexp q)
        < 2 ^ (qexp q + 1) * 2 ^ ((p : ℤ) - 1 - qexp q) :=
          mul_lt_mul_of_pos_right h2 hpow
      _ = 2 ^ (p : ℤ) := by
          rw [← zpow_add₀ (two_ne_zero : (2 : ℚ) ≠ 0)]
          congr 1
          ring

theorem rne_m_bounds (p : Nat) (hp : 1 ≤ p) (q : ℚ) (hq : 0 < q) :
    (2 ^ (p - 1) : ℤ) ≤ rne (q * 2 ^ ((p : ℤ) - 1 - qexp q)) ∧
      rne (q * 2 ^ ((p : ℤ) - 1 - qexp q)) ≤ 2 ^ p := by
  obtain ⟨hM1, hM2⟩ := rndM_bounds p q hq
  set M := q * 2 ^ ((p : ℤ) - 1 - qexp q) with hM
  constructor
  · have hge := rne_ge M
    have hcast : ((2 ^ (p - 1) : ℤ) : ℚ) - 1 < (rne M : ℚ) := by
      rw [castPowSubOne p hp]
      linarith
    have hz : (2 ^ (p - 1) : ℤ) - 1 < rne M := by exact_mod_cast hcast
    omega
  · have hle := rne_le M
    have hcast : (rne M : ℚ) < ((2 ^ p : ℤ) : ℚ) + 1 := by
      rw [castPow p]
      linarith
    have hz : rne M < (2 ^ p : ℤ) + 1 := by exact_mod_cast hcast
    omega

theorem rndF_lower (p : Nat) (hp : 1 ≤ p) (q : ℚ) (hq : 0 < q) :
    (2 : ℚ) ^ qexp q ≤ rndF p q := by
  rw [rndF_eq p q hq]
  have hm := (rne_m_bounds p hp q hq).1
  have hpow : (0 : ℚ) < 2 ^ (qexp q - ((p : ℤ) - 1)) := zpow_pos (by norm_num) _
  calc (2 : ℚ) ^ qexp q
      = 2 ^ ((p : ℤ) - 1) * 2 ^ (qexp q - ((p : ℤ) - 1)) := by
        rw [← zpow_add₀ (two_ne_zero : (2 : ℚ) ≠ 0)]
        congr 1
        ring
    _ ≤ (rne (q * 2 ^ ((p : ℤ) - 1 - qexp q)) : ℚ) * 2 ^ (qexp q - ((p : ℤ) - 1)) := by
        apply mul_le_mul_of_nonneg_right ?_ hpow.le
        rw [← castPowSubOne p hp]
        exact_mod_cast hm

theorem rndF_upper (p : Nat) (hp : 1 ≤ p) (q : ℚ) (hq : 0 < q) :
    rndF p q ≤ 2 ^ (qexp q + 1) := by
  rw [rndF_eq p q hq]
  have hm := (rne_m_bounds p hp q hq).2
  have hpow : (0 : ℚ) < 2 ^ (qexp q - ((p : ℤ) - 1)) := zpow_pos (by norm_num) _
  calc (rne (q * 2 ^ ((p : ℤ) - 1 - qexp q)) : ℚ) * 2 ^ (qexp q - ((p : ℤ) - 1))
      ≤ ((2 ^ p : ℤ) : ℚ) * 2 ^ (qexp q - ((p : ℤ) - 1)) := by
        apply mul_le_mul_of_nonneg_right ?_ hpow.le
        exact_mod_cast hm
    _ = 2 ^ (qexp q + 1) := by
        rw [castPow p, ← zpow_add₀ (two_ne_zero : (2 : ℚ) ≠ 0)]
        congr 1
        ring

theorem rndF_nonneg (p : Nat) (q : ℚ) : 0 ≤ rndF p q := by
  by_cases hq : q ≤ 0
  · unfold rndF
    rw [if_pos hq]
  · have hq0 : 0 < q := not_le.mp hq
    rw [rndF_eq p q hq0]
    apply mul_nonneg ?_ (zpow_pos (by norm_num : (0 : ℚ) < 2) _).le
    have hM : (0 : ℚ) < q * 2 ^ ((p : ℤ) - 1 - qexp q) :=
      mul_pos hq0 (zpow_pos (by norm_num) _)
    have hge := rne_ge (q * 2 ^ ((p : ℤ) - 1 - qexp q))
    have h1 : (-1 : ℚ) < (rne (q * 2 ^ ((p : ℤ) - 1 - qexp q)) : ℚ) := by linarith
    have h2 : (-1 : ℤ) < rne (q * 2 ^ ((p : ℤ) - 1 - qexp q)) := by exact_mod_cast h1
    have h3 : (0 : ℤ) ≤ rne (q * 2 ^ ((p : ℤ) - 1 - qexp q)) := by omega
    exact_mod_cast h3

theorem qexp_mono {x y : ℚ} (hx : 0 < x) (hxy : x ≤ y) : qexp x ≤ qexp y :=
  qexp_ge (lt_of_lt_of_le hx hxy) (qexp x) (le_trans (qexp_spec x hx).1 hxy)

theorem rndF_mono (p : Nat) (hp : 1 ≤ p) {x y : ℚ} (hxy : x ≤ y) :
    rndF p x ≤ rndF p y := by
  by_cases hx : x ≤ 0
  · have h0 : rndF p x = 0 := by
      unfold rndF
      rw [if_pos hx]
    rw [h0]
    exact rndF_nonneg p y
  · have hx0 : 0 < x := not_le.mp hx
    have hy0 : 0 < y := lt_of_lt_of_le hx0 hxy
    have he := qexp_mono hx0 hxy
    rcases eq_or_lt_of_le he with heq | hlt
    · rw [rndF_eq p x hx0, rndF_eq p y hy0, ← heq]
      apply mul_le_mul_of_nonneg_right ?_ (zpow_pos (by norm_num : (0 : ℚ) < 2) _).le
      have hMm : x * 2 ^ ((p : ℤ) - 1 - qexp x) ≤ y * 2 ^ ((p : ℤ) - 1 - qexp x) :=
        mul_le_mul_of_nonneg_right hxy (zpow_pos (by norm_num) _).le
      exact_mod_cast rne_mono hMm
    · calc rndF p x ≤ 2 ^ (qexp x + 1) := rndF_upper p hp x hx0
        _ ≤ 2 ^ qexp y := zpow_le_zpow_right₀ (by norm_num) (by omega)
        _ ≤ rndF p y := rndF_lower p hp y hy0

theorem rndF_ge_zpow (p : Nat) (hp : 1 ≤ p) (q : ℚ) (hq : 0 < q) (k : ℤ)
    (hk : (2 : ℚ) ^ k ≤ q) : (2 : ℚ) ^ k ≤ rndF p q :=
  calc (2 : ℚ) ^ k ≤ 2 ^ qexp q :=
        zpow_le_zpow_right₀ (by norm_num) (qexp_ge hq k hk)
    _ ≤ rndF p q := rndF_lower p hp q hq

theorem rndF_le_zpow (p : Nat) (hp : 1 ≤ p) (q : ℚ) (hq : 0 < q) (k : ℤ)
    (hk : q < (2 : ℚ) ^ k) : rndF p q ≤ (2 : ℚ) ^ k :=
  calc rndF p q ≤ 2 ^ (qexp q + 1) := rndF_upper p hp q hq
    _ ≤ 2 ^ k := zpow_le_zpow_right₀ (by norm_num)
        (by have := qexp_lt hq k hk; omega)

theorem rndF_natCast (p : Nat) (hp : 1 ≤ p) (n : Nat) (hn : n < 2 ^ p) :
    rndF p (n : ℚ) = n := by
  rcases Nat.eq_zero_or_pos n with h0 | hpos
  · subst h0
    unfold rndF
    rw [if_pos (by norm_num)]
    norm_num
  · have hq : (0 : ℚ) < (n : ℚ) := by exact_mod_cast hpos
    have h1 : (1 : ℚ) ≤ (n : ℚ) := by exact_mod_cast hpos
    have hnp : ((n : ℚ)) < 2 ^ (p : ℤ) := by
      rw [← castPow]
      exact_mod_cast hn
    rw [rndF_eq p _ hq]
    have he_nonneg : 0 ≤ qexp (n : ℚ) :=
      qexp_ge hq 0 (by rw [zpow_zero]; exact h1)
    have he_lt : qexp (n : ℚ) < (p : ℤ) := qexp_lt hq (p : ℤ) hnp
    set e := qexp (n : ℚ) with he_def
    have hz_nonneg : 0 ≤ (p : ℤ) - 1 - e := by omega
    set t := ((p : ℤ) - 1 - e).toNat with ht_def
    have hzt : ((p : ℤ) - 1 - e) = (t : ℤ) := (Int.toNat_of_nonneg hz_nonneg).symm
    rw [hzt, zpow_natCast]
    have hM : (n : ℚ) * 2 ^ t = (((n * 2 ^ t : ℕ) : ℤ) : ℚ) := by
      push_cast
      ring
    rw [hM, rne_intCast]
    have hexp : e - ((p : ℤ) - 1) = -(t : ℤ) := by omega
    rw [hexp, zpow_neg, zpow_natCast]
    push_cast
    exact mul_inv_cancel_right₀ (by positivity) _

theorem rndF_mantissa_ub (p : Nat) (q : ℚ) (hq0 : 0 < q) (e K : ℤ)
    (he : qexp q = e) (hub : q * 2 ^ ((p : ℤ) - 1 - e) < (K : ℚ) + 1 / 2) :
    rndF p q ≤ (K : ℚ) * 2 ^ (e - ((p : ℤ) - 1)) := by
  rw [rndF_eq p q hq0, he]
  apply mul_le_mul_of_nonneg_right ?_ (zpow_pos (by norm_num : (0 : ℚ) < 2) _).le
  exact_mod_cast rne_le_int _ K hub

theorem rndF_mantissa_lb (p : Nat) (q : ℚ) (hq0 : 0 < q) (e K : ℤ)
    (he : qexp q = e) (hlb : (K : ℚ) - 1 / 2 < q * 2 ^ ((p : ℤ) - 1 - e)) :
    (K : ℚ) * 2 ^ (e - ((p : ℤ) - 1)) ≤ rndF p q := by
  rw [rndF_eq p q hq0, he]
  apply mul_le_mul_of_nonneg_right ?_ (zpow_pos (by norm_num : (0 : ℚ) < 2) _).le
  exact_mod_cast rne_ge_int _ K hlb

theorem rne_eval_near (x : ℚ) (n : ℤ) (h1 : (n : ℚ) - 1 / 2 < x)
    (h2 : x < (n : ℚ) + 1 / 2) : rne x = n := by
  rcases le_or_lt (n : ℚ) x with hc | hc
  · have hfl : ⌊x⌋ = n := Int.floor_eq_iff.mpr ⟨hc, by push_cast; linarith⟩
    unfold rne
    rw [hfl, if_pos (by push_cast; linarith)]
  · have hfl : ⌊x⌋ = n - 1 :=
      Int.floor_eq_iff.mpr ⟨by push_cast; linarith, by push_cast; linarith⟩
    unfold rne
    rw [hfl, if_neg (by push_cast; intro hcon; linarith),
      if_pos (by push_cast; linarith)]
    omega

theorem rne_eval_tie (x : ℚ) (n : ℤ) (hpar : n % 2 = 0)
    (h : x = (n : ℚ) + 1 / 2) : rne x = n := by
  have hfl : ⌊x⌋ = n :=
    Int.floor_eq_iff.mpr ⟨by rw [h]; linarith, by rw [h]; push_cast; linarith⟩
  unfold rne
  rw [hfl, h, if_neg (by intro hcon; linarith), if_neg (by intro hcon; linarith),
    if_pos hpar]

theorem rndF_eval (p : Nat) (q : ℚ) (hq : 0 < q) (e n : ℤ)
    (he1 : (2 : ℚ) ^ e ≤ q) (he2 : q < 2 ^ (e + 1))
    (hn1 : (n : ℚ) - 1 / 2 < q * 2 ^ ((p : ℤ) - 1 - e))
    (hn2 : q * 2 ^ ((p : ℤ) - 1 - e) < (n : ℚ) + 1 / 2) :
    rndF p q = (n : ℚ) * 2 ^ (e - ((p : ℤ) - 1)) := by
  have he := qexp_unique q hq e he1 he2
  rw [rndF_eq p q hq, he, rne_eval_near _ n hn1 hn2]

theorem rndF_eval_tie (p : Nat) (q : ℚ) (hq : 0 < q) (e n : ℤ)
    (he1 : (2 : ℚ) ^ e ≤ q) (he2 : q < 2 ^ (e + 1)) (hpar : n % 2 = 0)
    (hM : q * 2 ^ ((p : ℤ) - 1 - e) = (n : ℚ) + 1 / 2) :
    rndF p q = (n : ℚ) * 2 ^ (e - ((p : ℤ) - 1)) := by
  have he := qexp_unique q hq e he1 he2
  rw [rndF_eq p q hq, he, rne_eval_tie _ n hpar hM]

theorem rndF_eval_int (p : Nat) (q : ℚ) (hq : 0 < q) (e n : ℤ)
    (he1 : (2 : ℚ) ^ e ≤ q) (he2 : q < 2 ^ (e + 1))
    (hM : q * 2 ^ ((p : ℤ) - 1 - e) = (n : ℚ)) :
    rndF p q = (n : ℚ) * 2 ^ (e - ((p : ℤ) - 1)) := by
  have he := qexp_unique q hq e he1 he2
  rw [rndF_eq p q hq, he, hM, rne_intCast]

/-! ### f64 rounding of quotients of naturals: the pressure bands -/

theorem rnd64_mantissa_ub (q : ℚ) (hq0 : 0 < q) (e K : ℤ) (he : qexp q = e)
    (hub : q * 2 ^ (52 - e : ℤ) < (K : ℚ) + 1 / 2) :
    rnd64 q ≤ (K : ℚ) * 2 ^ (e - 52 : ℤ) := by
  unfold rnd64
  have h := rndF_mantissa_ub 53 q hq0 e K he
    (by rw [(by omega : ((53 : ℕ) : ℤ) - 1 - e = (52 - e : ℤ))]; exact hub)
  rw [(by omega : e - (((53 : ℕ) : ℤ) - 1) = (e - 52 : ℤ))] at h
  exact h

theorem rnd64_mantissa_lb (q : ℚ) (hq0 : 0 < q) (e K : ℤ) (he : qexp q = e)
    (hlb : (K : ℚ) - 1 / 2 < q * 2 ^ (52 - e : ℤ)) :
    (K : ℚ) * 2 ^ (e - 52 : ℤ) ≤ rnd64 q := by
  unfold rnd64
  have h := rndF_mantissa_lb 53 q hq0 e K he
    (by rw [(by omega : ((53 : ℕ) : ℤ) - 1 - e = (52 - e : ℤ))]; exact hlb)
  rw [(by omega : e - (((53 : ℕ) : ℤ) - 1) = (e - 52 : ℤ))] at h
  exact h

theorem rnd64_natCast (n : Nat) (hn : n < 2 ^ 53) : rnd64 (n : ℚ) = n :=
  rndF_natCast 53 (by norm_num) n hn

theorem rnd64_ge_one {rss t : Nat} (ht : 0 < t) (hle : t ≤ rss) :
    (1 : ℚ) ≤ rnd64 ((rss : ℚ) / (t : ℚ)) := by
  unfold rnd64
  have ht0 : (0 : ℚ) < (t : ℚ) := by exact_mod_cast ht
  have hq1 : (1 : ℚ) ≤ (rss : ℚ) / (t : ℚ) := by
    rw [le_div_iff₀ ht0, one_mul]
    exact_mod_cast hle
  have hq0 : (0 : ℚ) < (rss : ℚ) / (t : ℚ) := lt_of_lt_of_le one_pos hq1
  have h := rndF_ge_zpow 53 (by norm_num) _ hq0 0 (by rw [zpow_zero]; exact hq1)
  rw [zpow_zero] at h
  exact h

theorem rnd64_lt_one {rss t : Nat} (ht : 0 < t) (ht53 : t < 2 ^ 53)
    (hlt : rss < t) : rnd64 ((rss : ℚ) / (t : ℚ)) < 1 := by
  rcases Nat.eq_zero_or_pos rss with h0 | hpos
  · subst h0
    rw [Nat.cast_zero, zero_div]
    unfold rnd64 rndF
    rw [if_pos le_rfl]
    norm_num
  · have ht0 : (0 : ℚ) < (t : ℚ) := by exact_mod_cast ht
    have hq0 : (0 : ℚ) < (rss : ℚ) / (t : ℚ) := div_pos (by exact_mod_cast hpos) ht0
    have hq1 : (rss : ℚ) / (t : ℚ) < 1 := by
      rw [div_lt_one ht0]
      exact_mod_cast hlt
    have he_lt : qexp ((rss : ℚ) / (t : ℚ)) < 0 :=
      qexp_lt hq0 0 (by rw [zpow_zero]; exact hq1)
    rcases eq_or_lt_of_le (show qexp ((rss : ℚ) / (t : ℚ)) ≤ -1 by omega) with he | he
    · have hrss_le : (rss : ℚ) ≤ (t : ℚ) - 1 := by
        have h2 : ((rss : ℚ) + 1) ≤ (t : ℚ) := by exact_mod_cast hlt
        linarith
      norm_num at ht53
      have htq : (t : ℚ) < 9007199254740992 := by exact_mod_cast ht53
      have hub : (rss : ℚ) / (t : ℚ) * 2 ^ (52 - (-1 : ℤ) : ℤ) <
          ((9007199254740991 : ℤ) : ℚ) + 1 / 2 := by
        rw [(by norm_num : (2 : ℚ) ^ (52 - (-1 : ℤ) : ℤ) = 9007199254740992),
          div_mul_eq_mul_div, div_lt_iff₀ ht0]
        push_cast
        linarith
      calc rnd64 ((rss : ℚ) / (t : ℚ))
          ≤ ((9007199254740991 : ℤ) : ℚ) * 2 ^ ((-1 : ℤ) - 52 : ℤ) :=
            rnd64_mantissa_ub _ hq0 (-1) _ he hub
        _ < 1 := by norm_num
    · obtain ⟨hs1, hs2⟩ := qexp_spec _ hq0
      have hq_half : (rss : ℚ) / (t : ℚ) < (2 : ℚ) ^ (-1 : ℤ) :=
        lt_of_lt_of_le hs2 (zpow_le_zpow_right₀ (by norm_num) (by omega))
      calc rnd64 ((rss : ℚ) / (t : ℚ)) ≤ (2 : ℚ) ^ (-1 : ℤ) := by
            unfold rnd64
            exact rndF_le_zpow 53 (by norm_num) _ hq0 (-1) hq_half
        _ < 1 := by norm_num

theorem rnd64_ge_high {rss t : Nat} (ht : 0 < t) (h45 : 4 * t ≤ 5 * rss)
    (hlt : rss < t) : F64_0_8 ≤ rnd64 ((rss : ℚ) / (t : ℚ)) := by
  have ht0 : (0 : ℚ) < (t : ℚ) := by exact_mod_cast ht
  have hpos : 0 < rss := by omega
  have hq0 : (0 : ℚ) < (rss : ℚ) / (t : ℚ) := div_pos (by exact_mod_cast hpos) ht0
  have hq45 : (4 : ℚ) / 5 ≤ (rss : ℚ) / (t : ℚ) := by
    rw [div_le_div_iff₀ (by norm_num) ht0]
    have hc : ((4 * t : ℕ) : ℚ) ≤ ((5 * rss : ℕ) : ℚ) := by exact_mod_cast h45
    push_cast at hc
    linarith
  have hq1 : (rss : ℚ) / (t : ℚ) < 1 := by
    rw [div_lt_one ht0]
    exact_mod_cast hlt
  have he : qexp ((rss : ℚ) / (t : ℚ)) = -1 := by
    apply qexp_unique _ hq0 (-1)
    · rw [(by norm_num : (2 : ℚ) ^ (-1 : ℤ) = 1 / 2)]
      linarith
    · rw [(by norm_num : (2 : ℚ) ^ ((-1 : ℤ) + 1) = 1)]
      exact hq1
  have hcq : 4 * (t : ℚ) ≤ 5 * (rss : ℚ) := by
    have hc : ((4 * t : ℕ) : ℚ) ≤ ((5 * rss : ℕ) : ℚ) := by exact_mod_cast h45
    push_cast at hc
    linarith
  have hrss1 : (1 : ℚ) ≤ (rss : ℚ) := by exact_mod_cast hpos
  have hlb : ((7205759403792794 : ℤ) : ℚ) - 1 / 2 <
      (rss : ℚ) / (t : ℚ) * 2 ^ (52 - (-1 : ℤ) : ℤ) := by
    rw [(by norm_num : (2 : ℚ) ^ (52 - (-1 : ℤ) : ℤ) = 9007199254740992),
      div_mul_eq_mul_div, lt_div_iff₀ ht0]
    push_cast
    linarith
  calc F64_0_8 = ((7205759403792794 : ℤ) : ℚ) * 2 ^ ((-1 : ℤ) - 52 : ℤ) := by
        norm_num [F64_0_8]
    _ ≤ rnd64 ((rss : ℚ) / (t : ℚ)) := rnd64_mantissa_lb _ hq0 (-1) _ he hlb

theorem rnd64_lt_high {rss t : Nat} (ht : 0 < t) (ht53 : t < 2 ^ 53)
    (h45 : 5 * rss < 4 * t) : rnd64 ((rss : ℚ) / (t : ℚ)) < F64_0_8 := by
  rcases Nat.eq_zero_or_pos rss with h0 | hpos
  · subst h0
    rw [Nat.cast_zero, zero_div]
    unfold rnd64 rndF
    rw [if_pos le_rfl]
    norm_num [F64_0_8]
  · have ht0 : (0 : ℚ) < (t : ℚ) := by exact_mod_cast ht
    have hq0 : (0 : ℚ) < (rss : ℚ) / (t : ℚ) := div_pos (by exact_mod_cast hpos) ht0
    have hrt : rss < t := by omega
    have hq1 : (rss : ℚ) / (t : ℚ) < 1 := by
      rw [div_lt_one ht0]
      exact_mod_cast hrt
    have he_lt : qexp ((rss : ℚ) / (t : ℚ)) < 0 :=
      qexp_lt hq0 0 (by rw [zpow_zero]; exact hq1)
    rcases eq_or_lt_of_le (show qexp ((rss : ℚ) / (t : ℚ)) ≤ -1 by omega) with he | he
    · have hc : (5 * (rss : ℚ)) + 1 ≤ 4 * (t : ℚ) := by
        have h5 : ((5 * rss + 1 : ℕ) : ℚ) ≤ ((4 * t : ℕ) : ℚ) := by exact_mod_cast h45
        push_cast at h5
        linarith
      norm_num at ht53
      have htq : (t : ℚ) < 9007199254740992 := by exact_mod_cast ht53
      have hub : (rss : ℚ) / (t : ℚ) * 2 ^ (52 - (-1 : ℤ) : ℤ) <
          ((7205759403792793 : ℤ) : ℚ) + 1 / 2 := by
        rw [(by norm_num : (2 : ℚ) ^ (52 - (-1 : ℤ) : ℤ) = 9007199254740992),
          div_mul_eq_mul_div, div_lt_iff₀ ht0]
        push_cast
        linarith
      calc rnd64 ((rss : ℚ) / (t : ℚ))
          ≤ ((7205759403792793 : ℤ) : ℚ) * 2 ^ ((-1 : ℤ) - 52 : ℤ) :=
            rnd64_mantissa_ub _ hq0 (-1) _ he hub
        _ < F64_0_8 := by norm_num [F64_0_8]
    · obtain ⟨hs1, hs2⟩ := qexp_spec _ hq0
      have hq_half : (rss : ℚ) / (t : ℚ) < (2 : ℚ) ^ (-1 : ℤ) :=
        lt_of_lt_of_le hs2 (zpow_le_zpow_right₀ (by norm_num) (by omega))
      calc rnd64 ((rss : ℚ) / (t : ℚ)) ≤ (2 : ℚ) ^ (-1 : ℤ) := by
            unfold rnd64
            exact rndF_le_zpow 53 (by norm_num) _ hq0 (-1) hq_half
        _ < F64_0_8 := by norm_num [F64_0_8]

theorem rnd64_ge_half {rss t : Nat} (ht : 0 < t) (hle : t ≤ 2 * rss) :
    1 / 2 ≤ rnd64 ((rss : ℚ) / (t : ℚ)) := by
  unfold rnd64
  have ht0 : (0 : ℚ) < (t : ℚ) := by exact_mod_cast ht
  have hpos : 0 < rss := by omega
  have hq0 : (0 : ℚ) < (rss : ℚ) / (t : ℚ) := div_pos (by exact_mod_cast hpos) ht0
  have hqh : 1 / 2 ≤ (rss : ℚ) / (t : ℚ) := by
    rw [div_le_div_iff₀ (by norm_num) ht0]
    have hc : ((t : ℕ) : ℚ) ≤ ((2 * rss : ℕ) : ℚ) := by exact_mod_cast hle
    push_cast at hc
    linarith
  have h := rndF_ge_zpow 53 (by norm_num) _ hq0 (-1)
    (by rw [(by norm_num : (2 : ℚ) ^ (-1 : ℤ) = 1 / 2)]; exact hqh)
  rw [(by norm_num : (2 : ℚ) ^ (-1 : ℤ) = 1 / 2)] at h
  exact h

theorem rnd64_lt_half {rss t : Nat} (ht : 0 < t) (ht53 : t < 2 ^ 53)
    (h2 : 2 * rss < t) : rnd64 ((rss : ℚ) / (t : ℚ)) < 1 / 2 := by
  rcases Nat.eq_zero_or_pos rss with h0 | hpos
  · subst h0
    rw [Nat.cast_zero, zero_div]
    unfold rnd64 rndF
    rw [if_pos le_rfl]
    norm_num
  · have ht0 : (0 : ℚ) < (t : ℚ) := by exact_mod_cast ht
    have hq0 : (0 : ℚ) < (rss : ℚ) / (t : ℚ) := div_pos (by exact_mod_cast hpos) ht0
    have hq_half : (rss : ℚ) / (t : ℚ) < 1 / 2 := by
      rw [div_lt_div_iff₀ ht0 (by norm_num)]
      have hc : ((2 * rss : ℕ) : ℚ) < ((t : ℕ) : ℚ) := by exact_mod_cast h2
      push_cast at hc
      linarith
    have he_lt2 : qexp ((rss : ℚ) / (t : ℚ)) < -1 :=
      qexp_lt hq0 (-1)
        (by rw [(by norm_num : (2 : ℚ) ^ (-1 : ℤ) = 1 / 2)]; exact hq_half)
    rcases eq_or_lt_of_le (show qexp ((rss : ℚ) / (t : ℚ)) ≤ -2 by omega) with he | he
    · have hc : (2 * (rss : ℚ)) + 1 ≤ (t : ℚ) := by
        have h5 : ((2 * rss + 1 : ℕ) : ℚ) ≤ ((t : ℕ) : ℚ) := by exact_mod_cast h2
        push_cast at h5
        linarith
      norm_num at ht53
      have htq : (t : ℚ) < 9007199254740992 := by exact_mod_cast ht53
      have hub : (rss : ℚ) / (t : ℚ) * 2 ^ (52 - (-2 : ℤ) : ℤ) <
          ((9007199254740991 : ℤ) : ℚ) + 1 / 2 := by
        rw [(by norm_num : (2 : ℚ) ^ (52 - (-2 : ℤ) : ℤ) = 18014398509481984),
          div_mul_eq_mul_div, div_lt_iff₀ ht0]
        push_cast
        linarith
      calc rnd64 ((rss : ℚ) / (t : ℚ))
          ≤ ((9007199254740991 : ℤ) : ℚ) * 2 ^ ((-2 : ℤ) - 52 : ℤ) :=
            rnd64_mantissa_ub _ hq0 (-2) _ he hub
        _ < 1 / 2 := by norm_num
    · obtain ⟨hs1, hs2⟩ := qexp_spec _ hq0
      have hq_quarter : (rss : ℚ) / (t : ℚ) < (2 : ℚ) ^ (-2 : ℤ) :=
        lt_of_lt_of_le hs2 (zpow_le_zpow_right₀ (by norm_num) (by omega))
      calc rnd64 ((rss : ℚ) / (t : ℚ)) ≤ (2 : ℚ) ^ (-2 : ℤ) := by
            unfold rnd64
            exact rndF_le_zpow 53 (by norm_num) _ hq0 (-2) hq_quarter
        _ < 1 / 2 := by norm_num

/-- Integer characterization of the f64 threshold comparisons of
`from_usage`, valid when both operands are below 2^53 (so that the
int-to-f64 conversions are exact and the quotient incurs one rounding). -/
theorem fromUsage_char (rss t : Nat) (ht : 0 < t) (hr53 : rss < 2 ^ 53)
    (ht53 : t < 2 ^ 53) :
    fromUsage rss t =
      if t ≤ rss then .Critical
      else if 4 * t ≤ 5 * rss then .High
      else if t ≤ 2 * rss then .Medium
      else .Low := by
  unfold fromUsage
  rw [if_neg ht.ne', rnd64_natCast rss hr53, rnd64_natCast t ht53]
  by_cases h1 : t ≤ rss
  · rw [if_pos h1, if_pos (rnd64_ge_one ht h1)]
  · rw [if_neg h1]
    have hlt : rss < t := by omega
    rw [if_neg (not_le.mpr (rnd64_lt_one ht ht53 hlt))]
    by_cases h2 : 4 * t ≤ 5 * rss
    · rw [if_pos h2, if_pos (rnd64_ge_high ht h2 hlt)]
    · rw [if_neg h2, if_neg (not_le.mpr (rnd64_lt_high ht ht53 (by omega)))]
      by_cases h3 : t ≤ 2 * rss
      · rw [if_pos h3, if_pos (rnd64_ge_half ht h3)]
      · rw [if_neg h3, if_neg (not_le.mpr (rnd64_lt_half ht ht53 (by omega)))]

/-- C7 (amended): for rss and threshold below 2^53 — where the u64-to-f64
conversions are exact and the f64 quotient incurs a single rounding —
the pressure classification is `Low` iff rss/threshold < 50%, `Medium`
iff it lies in [50%, 80%), `High` iff it lies in [80%, 100%), and
`Critical` iff it is at least 100%; with threshold 1000, usage 400 is
Low, 600 Medium, 900 High, 1100 Critical. Beyond 2^53 the rounded
threshold can shift a boundary (see the counterexample). -/
theorem claim_C7_pressure_boundaries (rss t : Nat) (ht : 0 < t)
    (hr53 : rss < 2 ^ 53) (ht53 : t < 2 ^ 53) :
    (fromUsage rss t = .Critical ↔ t ≤ rss) ∧
    (fromUsage rss t = .High ↔ 4 * t ≤ 5 * rss ∧ rss < t) ∧
    (fromUsage rss t = .Medium ↔ t ≤ 2 * rss ∧ 5 * rss < 4 * t) ∧
    (fromUsage rss t = .Low ↔ 2 * rss < t) ∧
    fromUsage 400 1000 = .Low ∧ fromUsage 600 1000 = .Medium ∧
    fromUsage 900 1000 = .High ∧ fromUsage 1100 1000 = .Critical := by
  have hchar := fromUsage_char rss t ht hr53 ht53
  have hc1 := fromUsage_char 400 1000 (by norm_num) (by norm_num) (by norm_num)
  have hc2 := fromUsage_char 600 1000 (by norm_num) (by norm_num) (by norm_num)
  have hc3 := fromUsage_char 900 1000 (by norm_num) (by norm_num) (by norm_num)
  have hc4 := fromUsage_char 1100 1000 (by norm_num) (by norm_num) (by norm_num)
  rw [hchar]
  norm_num at hc1 hc2 hc3 hc4
  refine ⟨?_, ?_, ?_, ?_, hc1, hc2, hc3, hc4⟩ <;>
    split_ifs with h1 h2 h3 <;> simp <;> omega

/-- Witness for C7 at rss = 600, threshold = 1000. -/
theorem claim_C7_witness :
    0 < 1000 ∧ 600 < 2 ^ 53 ∧ 1000 < 2 ^ 53 ∧
      (fromUsage 600 1000 = .Medium ↔ 1000 ≤ 2 * 600 ∧ 5 * 600 < 4 * 1000) :=
  ⟨by norm_num, by norm_num, by norm_num,
    (claim_C7_pressure_boundaries 600 1000 (by norm_num) (by norm_num)
      (by norm_num)).2.2.1⟩

/-- C7 counterexample: at rss = 2^52 and threshold = 2^53 + 1 the code
classifies `Medium` although rss/threshold < 1/2, which the claimed bands
place in `Low`: `threshold as f64` rounds 2^53 + 1 to 2^53 (ties-to-even),
making the computed ratio exactly 0.5. -/
theorem claim_C7_counterexample :
    fromUsage (2 ^ 52) (2 ^ 53 + 1) = .Medium ∧
    2 * 2 ^ 52 < 2 ^ 53 + 1 ∧
    MemoryPressureLevel.Medium ≠ MemoryPressureLevel.Low := by
  refine ⟨?_, by norm_num, by decide⟩
  have h1 : rnd64 (((2 ^ 52 : ℕ)) : ℚ) = ((2 ^ 52 : ℕ) : ℚ) :=
    rnd64_natCast (2 ^ 52) (by norm_num)
  have h2 : rnd64 (((2 ^ 53 + 1 : ℕ)) : ℚ) = ((2 ^ 52 : ℤ) : ℚ) * 2 ^
      ((53 : ℤ) - (((53 : ℕ) : ℤ) - 1)) := by
    unfold rnd64
    exact rndF_eval_tie 53 _ (by norm_num) 53 (2 ^ 52) (by push_cast; norm_num)
      (by push_cast; norm_num) (by norm_num) (by push_cast; norm_num)
  unfold fromUsage
  rw [if_neg (by norm_num), h1, h2]
  have hr : (((2 ^ 52 : ℕ)) : ℚ) / (((2 ^ 52 : ℤ) : ℚ) * 2 ^
      ((53 : ℤ) - (((53 : ℕ) : ℤ) - 1))) = 1 / 2 := by
    push_cast
    norm_num
  rw [hr]
  have h3 : rnd64 ((1 : ℚ) / 2) = ((2 ^ 52 : ℤ) : ℚ) * 2 ^
      ((-1 : ℤ) - (((53 : ℕ) : ℤ) - 1)) := by
    unfold rnd64
    exact rndF_eval_int 53 _ (by norm_num) (-1) (2 ^ 52) (by norm_num)
      (by norm_num) (by push_cast; norm_num)
  rw [h3]
  rw [if_neg (by push_cast; norm_num), if_neg (by push_cast; norm_num [F64_0_8]),
    if_pos (by push_cast; norm_num)]

/-! ### f32 facts about the thumbnail aspect computation -/

theorem TARGET32_eq : TARGET32 = 14913081 / 8388608 := by
  unfold TARGET32 rnd32
  rw [rndF_eval 24 ((320 : ℚ) / 180) (by norm_num) 0 14913081 (by norm_num)
    (by norm_num) (by norm_num) (by norm_num)]
  norm_num

theorem TARGET32_pos : 0 < TARGET32 := by
  rw [TARGET32_eq]
  norm_num

theorem rnd32_wide_edge : rnd32 ((320 : ℚ) / TARGET32) = 180 := by
  rw [TARGET32_eq]
  unfold rnd32
  rw [rndF_eval 24 ((320 : ℚ) / (14913081 / 8388608)) (by norm_num) 7 11796480
    (by norm_num) (by norm_num) (by norm_num) (by norm_num)]
  norm_num

theorem rnd32_tall_edge : rnd32 ((180 : ℚ) * TARGET32) = 320 := by
  rw [TARGET32_eq]
  unfold rnd32
  rw [rndF_eval 24 ((180 : ℚ) * (14913081 / 8388608)) (by norm_num) 8 10485760
    (by norm_num) (by norm_num) (by norm_num) (by norm_num)]
  norm_num

theorem target_lt_plus : TARGET32 < rnd32 ((16 : ℚ) / 9 + 1 / 2 ^ 20) := by
  unfold rnd32
  rw [rndF_eval 24 ((16 : ℚ) / 9 + 1 / 2 ^ 20) (by norm_num) 0 14913089
    (by norm_num) (by norm_num) (by norm_num) (by norm_num), TARGET32_eq]
  norm_num

theorem minus_le_target : rnd32 ((16 : ℚ) / 9 - 1 / 2 ^ 20) ≤ TARGET32 := by
  unfold rnd32
  rw [rndF_eval 24 ((16 : ℚ) / 9 - 1 / 2 ^ 20) (by norm_num) 0 14913073
    (by norm_num) (by norm_num) (by norm_num) (by norm_num), TARGET32_eq]
  norm_num

theorem f32ToU32_le (x : ℚ) (n : Nat) (h : x ≤ (n : ℚ)) : f32ToU32 x ≤ n := by
  unfold f32ToU32
  have hfl : ⌊x⌋ ≤ (n : ℤ) := by
    calc ⌊x⌋ ≤ ⌊(n : ℚ)⌋ := Int.floor_mono h
      _ = (n : ℤ) := Int.floor_natCast n
  exact Int.toNat_le.mpr hfl

/-- C9: the thumbnail dimensions always fit the 320 × 180 box with both
dimensions at least 1; for nonzero height the f32 aspect comparison picks
the constrained (long) edge — aspect above the 16:9 target pins the width
to 320 and floors the f32 rescale of the height (minimum 1), otherwise the
height is pinned to 180 and the width scaled likewise; any input whose
exact ratio clears the target by at least 2^-20 on either side (for
dimensions below 2^24, where f32 conversion is exact) falls in the
corresponding branch; a pixel buffer too small for width × height RGBA
pixels yields an `ImageEncode` error while a sufficient buffer yields
the bitmap with exactly these dimensions. -/
theorem claim_C9_thumbnail (width height : Nat) :
    (1 ≤ (calculateThumbnailSize width height).1 ∧
      (calculateThumbnailSize width height).1 ≤ 320 ∧
      1 ≤ (calculateThumbnailSize width height).2 ∧
      (calculateThumbnailSize width height).2 ≤ 180) ∧
    (0 < height →
      (TARGET32 < f32Aspect width height →
        calculateThumbnailSize width height =
          (320, max (f32ToU32 (rnd32 (320 / f32Aspect width height))) 1)) ∧
      (f32Aspect width height ≤ TARGET32 →
        calculateThumbnailSize width height =
          (max (f32ToU32 (rnd32 (180 * f32Aspect width height))) 1, 180))) ∧
    (0 < height → width < 2 ^ 24 → height < 2 ^ 24 →
      ((16 : ℚ) / 9 + 1 / 2 ^ 20 ≤ (width : ℚ) / (height : ℚ) →
        (calculateThumbnailSize width height).1 = 320) ∧
      ((width : ℚ) / (height : ℚ) ≤ (16 : ℚ) / 9 - 1 / 2 ^ 20 →
        (calculateThumbnailSize width height).2 = 180)) ∧
    (∀ pixels : List Nat, pixels.length < 4 * width * height →
      fromRgba pixels width height = .error (.ImageEncode [])) ∧
    (∀ pixels : List Nat, 4 * width * height ≤ pixels.length →
      fromRgba pixels width height =
        .ok { original_width := width, original_height := height
              thumbnail_width := (calculateThumbnailSize width height).1
              thumbnail_height := (calculateThumbnailSize width height).2 }) := by
  refine ⟨?_, ?_, ?_, ?_, ?_⟩
  · by_cases h0 : height = 0
    · subst h0
      unfold calculateThumbnailSize
      rw [if_pos rfl]
      by_cases hw : width = 0
      · rw [if_pos hw]
        exact ⟨by norm_num, by norm_num, by norm_num, by norm_num⟩
      · rw [if_neg hw]
        exact ⟨by norm_num, by norm_num, by norm_num, by norm_num⟩
    · unfold calculateThumbnailSize
      rw [if_neg h0]
      by_cases hbr : TARGET32 < f32Aspect width height
      · rw [if_pos hbr]
        have ha_pos : 0 < f32Aspect width height := lt_trans TARGET32_pos hbr
        have hdiv : (320 : ℚ) / f32Aspect width height ≤ 320 / TARGET32 := by
          rw [div_le_div_iff₀ ha_pos TARGET32_pos]
          exact mul_le_mul_of_nonneg_left hbr.le (by norm_num)
        have hrle : rnd32 ((320 : ℚ) / f32Aspect width height) ≤ 180 := by
          calc rnd32 ((320 : ℚ) / f32Aspect width height)
              ≤ rnd32 ((320 : ℚ) / TARGET32) := rndF_mono 24 (by norm_num) hdiv
            _ = 180 := rnd32_wide_edge
        have hfle : f32ToU32 (rnd32 ((320 : ℚ) / f32Aspect width height)) ≤ 180 :=
          f32ToU32_le _ 180 (by exact_mod_cast hrle)
        exact ⟨by norm_num, by norm_num, le_max_right _ _, max_le hfle (by norm_num)⟩
      · rw [if_neg hbr]
        have hle : f32Aspect width height ≤ TARGET32 := not_lt.mp hbr
        have hmul : (180 : ℚ) * f32Aspect width height ≤ 180 * TARGET32 :=
          mul_le_mul_of_nonneg_left hle (by norm_num)
        have hrle : rnd32 ((180 : ℚ) * f32Aspect width height) ≤ 320 := by
          calc rnd32 ((180 : ℚ) * f32Aspect width height)
              ≤ rnd32 ((180 : ℚ) * TARGET32) := rndF_mono 24 (by norm_num) hmul
            _ = 320 := rnd32_tall_edge
        have hfle : f32ToU32 (rnd32 ((180 : ℚ) * f32Aspect width height)) ≤ 320 :=
          f32ToU32_le _ 320 (by exact_mod_cast hrle)
        exact ⟨le_max_right _ _, max_le hfle (by norm_num), by norm_num, by norm_num⟩
  · intro hh
    constructor
    · intro hasp
      unfold calculateThumbnailSize
      rw [if_neg hh.ne', if_pos hasp]
    · intro hasp
      unfold calculateThumbnailSize
      rw [if_neg hh.ne', if_neg (not_lt.mpr hasp)]
  · intro hh hw24 hh24
    have haspect : f32Aspect width height = rnd32 ((width : ℚ) / (height : ℚ)) := by
      unfold f32Aspect rnd32
      rw [rndF_natCast 24 (by norm_num) width hw24,
        rndF_natCast 24 (by norm_num) height hh24]
    constructor
    · intro hwd
      have hgt : TARGET32 < f32Aspect width height := by
        rw [haspect]
        calc TARGET32 < rnd32 ((16 : ℚ) / 9 + 1 / 2 ^ 20) := target_lt_plus
          _ ≤ rnd32 ((width : ℚ) / (height : ℚ)) := rndF_mono 24 (by norm_num) hwd
      unfold calculateThumbnailSize
      rw [if_neg hh.ne', if_pos hgt]
    · intro htall
      have hle2 : f32Aspect width height ≤ TARGET32 := by
        rw [haspect]
        calc rnd32 ((width : ℚ) / (height : ℚ))
            ≤ rnd32 ((16 : ℚ) / 9 - 1 / 2 ^ 20) := rndF_mono 24 (by norm_num) htall
          _ ≤ TARGET32 := minus_le_target
      unfold calculateThumbnailSize
      rw [if_neg hh.ne', if_neg (not_lt.mpr hle2)]
  · intro pixels hlen
    unfold fromRgba
    rw [if_pos hlen]
  · intro pixels hlen
    unfold fromRgba
    rw [if_neg (by omega)]

theorem f32Aspect_19201080 : f32Aspect 1920 1080 = TARGET32 := by
  unfold f32Aspect rnd32 TARGET32
  rw [rndF_natCast 24 (by norm_num) 1920 (by norm_num),
    rndF_natCast 24 (by norm_num) 1080 (by norm_num)]
  congr 1
  norm_num

/-- Witness for C9 at a 1920 × 1080 frame (exactly 16:9, the
height-constrained branch) and an undersized buffer. -/
theorem claim_C9_witness :
    calculateThumbnailSize 1920 1080 = (320, 180) ∧
    fromRgba [] 1920 1080 = .error (.ImageEncode []) := by
  have h := claim_C9_thumbnail 1920 1080
  refine ⟨?_, h.2.2.2.1 [] (by simp)⟩
  have h2 := (h.2.1 (by norm_num)).2 (le_of_eq f32Aspect_19201080)
  rw [h2, f32Aspect_19201080, rnd32_tall_edge]
  have hf : f32ToU32 ((320 : ℚ)) = 320 := by
    unfold f32ToU32
    rw [(by norm_num : ((320 : ℚ)) = ((320 : ℤ) : ℚ)), Int.floor_intCast]
    rfl
  rw [hf]
  decide

/-- Number of hibernated entries in an LRU list. -/
def hibLen (l : List TabLruEntry) : Nat :=
  (l.filter (fun e => e.is_hibernated)).length

theorem hibLen_cons (e : TabLruEntry) (l : List TabLruEntry) :
    hibLen (e :: l) = (if e.is_hibernated then 1 else 0) + hibLen l := by
  cases h : e.is_hibernated <;> simp [hibLen, List.filter_cons, h] <;> omega

theorem hibLen_append (a b : List TabLruEntry) :
    hibLen (a ++ b) = hibLen a + hibLen b := by
  simp [hibLen, List.filter_append]

theorem hibLen_updateFirst (id : Nat) (f : TabLruEntry → TabLruEntry)
    (hf : ∀ e, (f e).is_hibernated = e.is_hibernated) :
    ∀ l, hibLen (updateFirst id f l) = hibLen l := by
  intro l
  induction l with
  | nil => rfl
  | cons e rest ih =>
    unfold updateFirst
    split_ifs with h
    · rw [hibLen_cons, hibLen_cons, hf]
    · rw [hibLen_cons, hibLen_cons, ih]

theorem hibLen_sortByLru (l : List TabLruEntry) :
    hibLen (sortByLru l) = hibLen l := by
  unfold hibLen
  exact ((List.perm_insertionSort lruLe l).filter _).length_eq

theorem markHibernatedGo_hibLen (id : Nat) :
    ∀ l, hibLen (markHibernatedGo id l).1 =
      hibLen l + (if (markHibernatedGo id l).2 then 1 else 0) := by
  intro l
  induction l with
  | nil => rfl
  | cons e rest ih =>
    by_cases h1 : e.tab_id = id
    · cases h2 : e.is_hibernated <;>
        simp [markHibernatedGo, h1, h2, hibLen_cons] <;> omega
    · rcases hgo : markHibernatedGo id rest with ⟨r, b⟩
      rw [hgo] at ih
      simp only [markHibernatedGo, if_neg h1, hgo, hibLen_cons] at ih ⊢
      omega

theorem markRestoredGo_hibLen (now id mem : Nat) :
    ∀ l, hibLen l = hibLen (markRestoredGo now id mem l).1 +
      (if (markRestoredGo now id mem l).2 then 1 else 0) := by
  intro l
  induction l with
  | nil => rfl
  | cons e rest ih =>
    by_cases h1 : e.tab_id = id
    · cases h2 : e.is_hibernated <;>
        simp [markRestoredGo, h1, h2, hibLen_cons] <;> omega
    · rcases hgo : markRestoredGo now id mem rest with ⟨r, b⟩
      rw [hgo] at ih
      simp only [markRestoredGo, if_neg h1, hgo, hibLen_cons] at ih ⊢
      omega

theorem removeTabGo_hibLen (id : Nat) :
    ∀ l, hibLen l = hibLen (removeTabGo id l).1 +
      (if (removeTabGo id l).2 then 1 else 0) := by
  intro l
  induction l with
  | nil => rfl
  | cons e rest ih =>
    by_cases h1 : e.tab_id = id
    · cases h2 : e.is_hibernated <;>
        simp [removeTabGo, h1, h2, hibLen_cons] <;> omega
    · rcases hgo : removeTabGo id rest with ⟨r, b⟩
      rw [hgo] at ih
      simp only [removeTabGo, if_neg h1, hgo, hibLen_cons] at ih ⊢
      omega

/-- The counter invariant: the cached `hibernated_count` equals the
number of entries whose `is_hibernated` flag is set. -/
def tmInv (s : TabManagerSt) : Prop :=
  s.hibernated_count = hibLen s.tab_lru

theorem tmStep_inv (s : TabManagerSt) (op : TmOp) (h : tmInv s) :
    tmInv (tmStep s op) := by
  cases op with
  | register now id mem =>
    simp only [tmInv, tmStep, registerTab] at *
    rw [hibLen_append, hibLen_cons]
    simpa using h
  | touch now id =>
    simp only [tmInv, tmStep, touchTab] at *
    rw [hibLen_sortByLru,
      hibLen_updateFirst id (fun e => { e with last_accessed := now }) (fun e => rfl)]
    exact h
  | updateMem id mem =>
    simp only [tmInv, tmStep, updateMemory] at *
    rw [hibLen_updateFirst id (fun e => { e with memory_usage := mem }) (fun e => rfl)]
    exact h
  | markHib id =>
    simp only [tmInv, tmStep, markHibernated] at *
    have := markHibernatedGo_hibLen id s.tab_lru
    omega
  | markRest now id mem =>
    simp only [tmInv, tmStep, markRestored] at *
    have := markRestoredGo_hibLen now id mem s.tab_lru
    omega
  | remove id =>
    simp only [tmInv, tmStep, removeTab] at *
    have := removeTabGo_hibLen id s.tab_lru
    omega

theorem runTm_inv_aux : ∀ (ops : List TmOp) (s : TabManagerSt), tmInv s →
    tmInv (ops.foldl tmStep s) := by
  intro ops
  induction ops with
  | nil => exact fun s h => h
  | cons op rest ih => exact fun s h => ih (tmStep s op) (tmStep_inv s op h)

theorem hibLen_split (l : List TabLruEntry) :
    hibLen l + (l.filter (fun e => !e.is_hibernated)).length = l.length := by
  induction l with
  | nil => rfl
  | cons e rest ih =>
    rw [hibLen_cons]
    cases h : e.is_hibernated <;> simp [List.filter_cons, h] <;> omega

/-- C10: in every `TabManager` state reachable by `register_tab`,
`touch_tab`, `update_memory`, `mark_hibernated`, `mark_restored`, and
`remove_tab`, the cached `hibernated_count` equals the number of LRU
entries with `is_hibernated` set, and `stats()` therefore satisfies
`total_tabs = active_tabs + hibernated_tabs`. -/
theorem claim_C10_hibernated_count (ops : List TmOp) :
    (runTm ops).hibernated_count =
      ((runTm ops).tab_lru.filter (fun e => e.is_hibernated)).length ∧
    (tmStats (runTm ops)).total_tabs =
      (tmStats (runTm ops)).active_tabs + (tmStats (runTm ops)).hibernated_tabs := by
  have hinv : tmInv (runTm ops) := runTm_inv_aux ops TabManagerSt.init rfl
  have hsplit := hibLen_split (runTm ops).tab_lru
  unfold tmInv at hinv
  unfold hibLen at hinv hsplit
  refine ⟨hinv, ?_⟩
  simp only [tmStats]
  omega

/-- The scan loop of `check_pressure` selects exactly the first
`remaining` eligible entries, in list order. -/
theorem suspendLoop_eq (p : MemoryPressureLevel) :
    ∀ (l : List TabLruEntry) (n : Nat),
      suspendLoop p n l = ((l.filter eligible).take n).map (suspendEvent p) := by
  intro l
  induction l with
  | nil => intro n; cases n <;> rfl
  | cons e rest ih =>
    intro n
    cases n with
    | zero =>
      simp [suspendLoop]
    | succ m =>
      by_cases h : e.is_active || e.is_hibernated
      · have helig : eligible e = false := by
          simp only [eligible]
          cases ha : e.is_active <;> cases hh : e.is_hibernated <;>
            simp [ha, hh] <;> simp [ha, hh] at h
        simp only [suspendLoop, List.filter_cons, helig, if_pos h, Nat.succ_ne_zero,
          if_neg (Nat.succ_ne_zero m), Bool.false_eq_true]
        exact ih (m + 1)
      · have helig : eligible e = true := by
          simp only [eligible]
          cases ha : e.is_active <;> cases hh : e.is_hibernated <;>
            simp [ha, hh] <;> simp [ha, hh] at h
        simp only [suspendLoop, List.filter_cons, helig, if_neg h,
          if_neg (Nat.succ_ne_zero m), if_pos rfl]
        simp [List.take, ih m]

/-- C6: `check_pressure` returns nothing below Medium (equivalently,
at Low); otherwise it returns `SuspendToDisk` events for exactly the
first `target` eligible (non-active, non-hibernated) entries of the
LRU-sorted list — the eligible tabs with the oldest `last_accessed`,
oldest first — where the sorted list is a `last_accessed`-sorted
permutation of the tab list and the target is 1 at Medium, 2 at High,
and the number of eligible tabs at Critical; the number of events is
`min target (number of eligible tabs)`. -/
theorem claim_C6_check_pressure (p : MemoryPressureLevel) (s : TabManagerSt) :
    (levelLt p .Medium = true ↔ p = .Low) ∧
    checkPressure p s = (if levelLt p .Medium then []
      else (((sortByLru s.tab_lru).filter eligible).take
        (targetHibernate p (sortByLru s.tab_lru))).map (suspendEvent p)) ∧
    (checkPressure p s).length = (if levelLt p .Medium then 0
      else min (targetHibernate p (sortByLru s.tab_lru))
        ((sortByLru s.tab_lru).filter eligible).length) ∧
    (sortByLru s.tab_lru).Sorted lruLe ∧
    (sortByLru s.tab_lru).Perm s.tab_lru ∧
    targetHibernate .Medium (sortByLru s.tab_lru) = 1 ∧
    targetHibernate .High (sortByLru s.tab_lru) = 2 ∧
    targetHibernate .Critical (sortByLru s.tab_lru) =
      ((sortByLru s.tab_lru).filter eligible).length := by
  refine ⟨by cases p <;> simp [levelLt, MemoryPressureLevel.toNat], ?_, ?_,
    List.sorted_insertionSort lruLe s.tab_lru,
    List.perm_insertionSort lruLe s.tab_lru, rfl, rfl, rfl⟩
  · unfold checkPressure
    split_ifs with h
    · rfl
    · exact suspendLoop_eq p _ _
  · unfold checkPressure
    split_ifs with h
    · rfl
    · rw [suspendLoop_eq p _ _, List.length_map, List.length_take]

/-- The `TabHeap` accounting invariant: the counter equals the sum of the
outstanding allocations, stays within the hard limit, and every
outstanding allocation respects the `Layout` size bound. -/
def TabHeapInv (cfg : HeapConfig) (s : TabHeapSt) : Prop :=
  s.allocated = s.live.sum ∧ s.allocated ≤ cfg.hard_limit ∧ ∀ x ∈ s.live, x < 2 ^ 63

theorem tabHeap_step_inv (cfg : HeapConfig) (hcfg : cfg.hard_limit < 2 ^ 63)
    (s : TabHeapSt) (op : HeapOp) (hop : sizeOk op) (h : TabHeapInv cfg s) :
    TabHeapInv cfg (heapStep cfg s op) := by
  obtain ⟨hsum, hle, hlive⟩ := h
  have hAW : s.allocated < W := by
    unfold W
    omega
  cases op with
  | alloc size =>
    have hsize : size < 2 ^ 63 := hop
    have hW : s.allocated + size < W := by
      unfold W
      omega
    have hsz : size % W = size := Nat.mod_eq_of_lt (by unfold W; omega)
    simp only [heapStep, tabAllocate, Nat.mod_eq_of_lt hW, hsz]
    split_ifs with hrej
    · have hroll : (s.allocated + size + (W - size)) % W = s.allocated := by
        have h1 : s.allocated + size + (W - size) = s.allocated + W := by omega
        rw [h1, Nat.add_mod_right, Nat.mod_eq_of_lt hAW]
      refine ⟨?_, ?_, hlive⟩
      · show (s.allocated + size + (W - size)) % W = s.live.sum
        rw [hroll]
        exact hsum
      · show (s.allocated + size + (W - size)) % W ≤ cfg.hard_limit
        rw [hroll]
        exact hle
    · refine ⟨?_, ?_, ?_⟩
      · show s.allocated + size = (size :: s.live).sum
        rw [List.sum_cons]
        omega
      · show s.allocated + size ≤ cfg.hard_limit
        omega
      · intro x hx
        rcases List.mem_cons.mp hx with hx | hx
        · omega
        · exact hlive x hx
  | free size =>
    simp only [heapStep]
    split_ifs with hmem
    · have hszlt : size < 2 ^ 63 := hlive size hmem
      have hsz : size % W = size := Nat.mod_eq_of_lt (by unfold W; omega)
      have hperm : s.live.Perm (size :: s.live.erase size) := List.perm_cons_erase hmem
      have hsum2 : s.live.sum = size + (s.live.erase size).sum := by
        rw [hperm.sum_eq, List.sum_cons]
      have hs_le : size ≤ s.allocated := by omega
      refine ⟨?_, ?_, ?_⟩
      · show tabDeallocateCounter s.allocated size = (s.live.erase size).sum
        unfold tabDeallocateCounter
        rw [hsz]
        have h1 : s.allocated + (W - size) = (s.allocated - size) + W := by
          unfold W at *
          omega
        rw [h1, Nat.add_mod_right, Nat.mod_eq_of_lt (by omega)]
        omega
      · show tabDeallocateCounter s.allocated size ≤ cfg.hard_limit
        unfold tabDeallocateCounter
        rw [hsz]
        have h1 : s.allocated + (W - size) = (s.allocated - size) + W := by
          unfold W at *
          omega
        rw [h1, Nat.add_mod_right, Nat.mod_eq_of_lt (by omega)]
        omega
      · exact fun x hx => hlive x (List.mem_of_mem_erase hx)
    · exact ⟨hsum, hle, hlive⟩

theorem runTabHeap_inv (cfg : HeapConfig) (hcfg : cfg.hard_limit < 2 ^ 63) :
    ∀ (ops : List HeapOp), (∀ op ∈ ops, sizeOk op) → ∀ (s : TabHeapSt),
      TabHeapInv cfg s → TabHeapInv cfg (ops.foldl (heapStep cfg) s) := by
  intro ops
  induction ops with
  | nil => exact fun _ s h => h
  | cons op rest ih =>
    intro hops s h
    exact ih (fun o ho => hops o (List.mem_cons_of_mem op ho))
      (heapStep cfg s op) (tabHeap_step_inv cfg hcfg s op (hops op (List.mem_cons_self op rest)) h)

/-- C1 counterexample: a fresh `JsHeap` with `max_size = 1024` and a
rejected 2048-byte `record_allocation` — the call returns
`OutOfMemory`, yet the allocated counter is left at 2048, not at its
pre-call value 0, and it exceeds the hard limit. -/
theorem claim_C1_counterexample :
    (recordAllocation (JsHeap.new 1 ⟨1024, 256, 768, 900⟩) 2048).1 =
      .error .OutOfMemory ∧
    ((recordAllocation (JsHeap.new 1 ⟨1024, 256, 768, 900⟩) 2048).2).allocated = 2048 ∧
    ((recordAllocation (JsHeap.new 1 ⟨1024, 256, 768, 900⟩) 2048).2).allocated ≠ 0 ∧
    (JsHeap.new 1 ⟨1024, 256, 768, 900⟩).limits.max_size <
      ((recordAllocation (JsHeap.new 1 ⟨1024, 256, 768, 900⟩) 2048).2).allocated := by
  refine ⟨rfl, ?_, ?_, ?_⟩ <;> decide

/-- C1 (amended): on `TabHeap` the claim holds — for every well-sized
operation sequence the counter equals the sum of the live allocations,
stays within `hard_limit`, and an allocation rejected because the new
total would exceed `hard_limit` rolls the counter back to exactly its
pre-call value; on `JsHeap`, however, `record_allocation` rejected with
`OutOfMemory` leaves the counter *increased by the requested size* (no
rollback), so the counter may exceed `max_size` after a rejected call. -/
theorem claim_C1_heap_accounting (cfg : HeapConfig) (ops : List HeapOp)
    (hcfg : cfg.hard_limit < 2 ^ 63) (hops : ∀ op ∈ ops, sizeOk op) :
    (runTabHeap cfg ops).allocated ≤ cfg.hard_limit ∧
    (runTabHeap cfg ops).allocated = (runTabHeap cfg ops).live.sum ∧
    (∀ size, size < 2 ^ 63 →
      cfg.hard_limit < (runTabHeap cfg ops).allocated + size →
      (tabAllocate cfg (runTabHeap cfg ops) size).1 = false ∧
      ((tabAllocate cfg (runTabHeap cfg ops) size).2).allocated =
        (runTabHeap cfg ops).allocated) ∧
    (∀ (h : JsHeap) (size : Nat), h.frozen = false → h.allocated + size < W →
      h.limits.max_size < h.allocated + size →
      (recordAllocation h size).1 = .error .OutOfMemory ∧
      ((recordAllocation h size).2).allocated = h.allocated + size) := by
  have hinv : TabHeapInv cfg (runTabHeap cfg ops) :=
    runTabHeap_inv cfg hcfg ops hops TabHeapSt.init
      ⟨rfl, Nat.zero_le _, by intro x hx; cases hx⟩
  obtain ⟨hsum, hle, _⟩ := hinv
  refine ⟨hle, hsum, ?_, ?_⟩
  · intro size hsize hover
    set t := runTabHeap cfg ops with ht
    have hW : t.allocated + size < W := by
      unfold W
      omega
    have hsz : size % W = size := Nat.mod_eq_of_lt (by unfold W; omega)
    have hAW : t.allocated < W := by
      unfold W
      omega
    simp only [tabAllocate, Nat.mod_eq_of_lt hW, hsz]
    rw [if_pos (by omega)]
    refine ⟨rfl, ?_⟩
    show (t.allocated + size + (W - size)) % W = t.allocated
    have h1 : t.allocated + size + (W - size) = t.allocated + W := by
      unfold W at *
      omega
    rw [h1, Nat.add_mod_right, Nat.mod_eq_of_lt hAW]
  · intro h size hfro hW hover
    simp only [recordAllocation, hfro, Bool.false_eq_true, if_false,
      Nat.mod_eq_of_lt hW]
    rw [if_pos (by omega)]
    exact ⟨rfl, rfl⟩

/-- Witness for C1 (amended) on a concrete run: limits 512/1024, one
accepted allocation, one rejected allocation, one free. -/
theorem claim_C1_heap_witness :
    (runTabHeap ⟨512, 1024⟩ [.alloc 600, .alloc 600, .free 600]).allocated ≤ 1024 ∧
    (recordAllocation (JsHeap.new 2 ⟨1024, 256, 768, 900⟩) 2000).1 =
      .error .OutOfMemory := by
  have hmain := claim_C1_heap_accounting ⟨512, 1024⟩
    [.alloc 600, .alloc 600, .free 600] (by norm_num) (by decide)
  refine ⟨hmain.1, ?_⟩
  exact (hmain.2.2.2 (JsHeap.new 2 ⟨1024, 256, 768, 900⟩) 2000 rfl
    (by norm_num [JsHeap.new, HeapStats.default, W]) (by decide)).1

/-- C5 counterexample: a `JsHeap` holding 5 allocated bytes; after
`record_deallocation(10)` the allocated counter reads `2 ^ 64 - 5`
(wrap-around), not 0; only the `stats.allocated` mirror saturates. -/
theorem claim_C5_counterexample :
    ((recordAllocation (JsHeap.new 1 HeapLimits.ultra_low) 5).2).allocated = 5 ∧
    (recordDeallocation ((recordAllocation (JsHeap.new 1 HeapLimits.ultra_low) 5).2)
      10).allocated = 2 ^ 64 - 5 ∧
    2 ^ 64 - 5 ≠ 0 ∧
    (recordDeallocation ((recordAllocation (JsHeap.new 1 HeapLimits.ultra_low) 5).2)
      10).stats.allocated = 0 := by
  refine ⟨?_, ?_, ?_, ?_⟩ <;> decide

/-- C5 (amended): `record_deallocation(size)` decreases the counter by
`size` when `size ≤ allocated`; when `size` exceeds the current value
the *atomic counter wraps modulo `2 ^ 64`* (to `2 ^ 64 - (size -
allocated)`, never 0 unless they are equal), while the `stats.allocated`
mirror saturates at zero; `TabHeap::deallocate` updates its counter by
the identical wrapping subtraction. -/
theorem claim_C5_record_deallocation (h : JsHeap) (size : Nat)
    (hA : h.allocated < W) (hs : size < W) :
    (recordDeallocation h size).stats.allocated = h.allocated - size ∧
    (size ≤ h.allocated → (recordDeallocation h size).allocated = h.allocated - size) ∧
    (h.allocated < size →
      (recordDeallocation h size).allocated = W - (size - h.allocated)) ∧
    (recordDeallocation h size).allocated = tabDeallocateCounter h.allocated size := by
  have hsz : size % W = size := Nat.mod_eq_of_lt hs
  refine ⟨rfl, ?_, ?_, rfl⟩
  · intro hle
    show (h.allocated + (W - size % W)) % W = h.allocated - size
    rw [hsz]
    have h1 : h.allocated + (W - size) = (h.allocated - size) + W := by omega
    rw [h1, Nat.add_mod_right]
    exact Nat.mod_eq_of_lt (by omega)
  · intro hlt
    show (h.allocated + (W - size % W)) % W = W - (size - h.allocated)
    rw [hsz]
    have h1 : h.allocated + (W - size) = W - (size - h.allocated) := by omega
    rw [h1]
    exact Nat.mod_eq_of_lt (by omega)

/-- Witness for C5 (amended) on a fresh heap and `size = 3`: the counter
wraps to `2 ^ 64 - 3` while the stats mirror saturates to 0. -/
theorem claim_C5_witness :
    (recordDeallocation (JsHeap.new 1 HeapLimits.ultra_low) 3).stats.allocated = 0 ∧
    (recordDeallocation (JsHeap.new 1 HeapLimits.ultra_low) 3).allocated =
      W - (3 - (JsHeap.new 1 HeapLimits.ultra_low).allocated) := by
  have hmain := claim_C5_record_deallocation (JsHeap.new 1 HeapLimits.ultra_low) 3
    (by decide) (by decide)
  exact ⟨hmain.1, hmain.2.2.1 (by decide)⟩

/-- Does this outcome represent an uncaught fault? -/
def isPanic : ProcOutcome → Bool
  | .ok => false
  | .panic _ _ => true

/-- Number of faulting outcomes among the next `n` message indices
starting at `i`. -/
def countPanics (beh : Nat → ProcOutcome) : Nat → Nat → Nat
  | _, 0 => 0
  | i, n + 1 => (if isPanic (beh i) then 1 else 0) + countPanics beh (i + 1) n

theorem countCrashed_append (a b : List UiMessage) :
    countCrashed (a ++ b) = countCrashed a + countCrashed b := by
  simp [countCrashed, List.filter_append]

theorem countCrashed_processMessage (tab_id : Nat) (msg : TabMessage) :
    countCrashed (processMessage tab_id msg) = 0 := by
  cases msg <;> rfl

theorem countCrashed_take (l : List UiMessage) (n : Nat) :
    countCrashed (l.take n) ≤ countCrashed l :=
  ((l.take_sublist n).filter _).length_le

/-- A faulting message emits exactly one crash report: its partial
normal output contains none, the boundary adds exactly one. -/
theorem countCrashed_panic_output (tab_id : Nat) (msg : TabMessage)
    (err : List Nat) (sent : Nat) :
    countCrashed ((processMessage tab_id msg).take sent ++
      [.tabCrashed tab_id err]) = 1 := by
  rw [countCrashed_append]
  have h0 : countCrashed ((processMessage tab_id msg).take sent) = 0 :=
    Nat.le_zero.mp (countCrashed_processMessage tab_id msg ▸
      countCrashed_take (processMessage tab_id msg) sent)
  rw [h0]
  rfl

/-- Crash reports in a worker run: one per faulting message among the
messages before the first `Shutdown`. -/
theorem runWorkerLoop_crashCount (beh : Nat → ProcOutcome) (tab_id : Nat) :
    ∀ (q : List TabMessage) (i : Nat),
      countCrashed (runWorkerLoop beh tab_id q i) =
        countPanics beh i (q.takeWhile (fun m => m != TabMessage.shutdown)).length := by
  intro q
  induction q with
  | nil => intro i; rfl
  | cons m rest ih =>
    intro i
    by_cases hm : m = TabMessage.shutdown
    · subst hm
      simp [runWorkerLoop, List.takeWhile, countCrashed, countPanics]
    · have hbne : (m != TabMessage.shutdown) = true := by
        simp [bne, hm]
      cases hbeh : beh i with
      | ok =>
        simp only [runWorkerLoop, if_neg hm, hbeh, List.takeWhile_cons, hbne,
          List.length_cons, countPanics, isPanic, countCrashed_append,
          countCrashed_processMessage, ih (i + 1)]
        simp
      | panic err sent =>
        have h0 : countCrashed ((processMessage tab_id m).take sent) = 0 :=
          Nat.le_zero.mp (countCrashed_processMessage tab_id m ▸
            countCrashed_take (processMessage tab_id m) sent)
        simp only [runWorkerLoop, if_neg hm, hbeh, List.takeWhile_cons, hbne,
          List.length_cons, countPanics, isPanic, countCrashed_append,
          ih (i + 1), h0]
        simp [countCrashed]

/-- C8: every uncaught fault while processing a message yields exactly
one `TabCrashed` report and the loop continues with the remaining
messages; over a whole queue the number of `TabCrashed` reports equals
the number of faulting messages among those processed (the messages
before the first `Shutdown`); `Shutdown` ends the loop immediately,
leaving the rest of the queue unprocessed; and replacing one tab's
queue/fault behaviour leaves every other tab's worker output
unchanged. -/
theorem claim_C8_fault_isolation (tab_id : Nat) (beh : Nat → ProcOutcome)
    (m : TabMessage) (post : List TabMessage) (q : List TabMessage)
    (i : Nat) (err : List Nat) (sent : Nat) :
    (runWorkerLoop beh tab_id (TabMessage.shutdown :: post) i = []) ∧
    (m ≠ TabMessage.shutdown → beh i = .panic err sent →
      runWorkerLoop beh tab_id (m :: post) i =
        ((processMessage tab_id m).take sent ++ [.tabCrashed tab_id err]) ++
          runWorkerLoop beh tab_id post (i + 1) ∧
      countCrashed ((processMessage tab_id m).take sent ++
        [.tabCrashed tab_id err]) = 1) ∧
    (countCrashed (runWorkerLoop beh tab_id q i) =
      countPanics beh i (q.takeWhile (fun x => x != TabMessage.shutdown)).length) ∧
    (∀ (tabs : List (Nat × List TabMessage × (Nat → ProcOutcome)))
      (k j : Nat) (c : Nat × List TabMessage × (Nat → ProcOutcome)), j ≠ k →
      (runAllWorkers (tabs.set k c))[j]? = (runAllWorkers tabs)[j]?) := by
  refine ⟨rfl, ?_, runWorkerLoop_crashCount beh tab_id q i, ?_⟩
  · intro hm hbeh
    refine ⟨?_, countCrashed_panic_output tab_id m err sent⟩
    simp only [runWorkerLoop, if_neg hm, hbeh]
  · intro tabs k j c hjk
    unfold runAllWorkers
    rw [List.getElem?_map, List.getElem?_map, List.getElem?_set_ne (Ne.symm hjk)]

/-- Witness for C8: a two-message queue whose first message panics; the
run emits exactly one crash report and still processes the second
message, and a shutdown-headed queue emits nothing. -/
theorem claim_C8_witness :
    runWorkerLoop (fun i => if i = 0 then .panic [] 0 else .ok) 7
        [.ping, .ping] 0 =
      [.tabCrashed 7 [], .pong 7] ∧
    countCrashed [UiMessage.tabCrashed 7 [], UiMessage.pong 7] = 1 ∧
    runWorkerLoop (fun _ => ProcOutcome.ok) 7 [.shutdown, .ping] 0 = [] := by
  have hmain := claim_C8_fault_isolation 7 (fun i => if i = 0 then .panic [] 0 else .ok)
    TabMessage.ping [TabMessage.ping] [TabMessage.ping, TabMessage.ping] 0 [] 0
  have hstep := hmain.2.1 (by decide) rfl
  refine ⟨?_, ?_, ?_⟩
  · rw [hstep.1]
    rfl
  · have := hstep.2
    simpa using this
  · exact (claim_C8_fault_isolation 7 (fun _ => ProcOutcome.ok)
      TabMessage.ping [TabMessage.ping] [] 0 [] 0).1

/-! ### Round-trip of the serialization codec -/

theorem decodeNat_encodeNatFuel :
    ∀ (fuel n : Nat), n < fuel → ∀ t,
      decodeNat (encodeNatFuel fuel n ++ t) = some (n, t) := by
  intro fuel
  induction fuel with
  | zero => intro n hn; omega
  | succ f ih =>
    intro n hn t
    by_cases h : n < 128
    · simp [encodeNatFuel, h, decodeNat]
    · have hrec := ih (n / 128) (by omega) t
      simp only [encodeNatFuel, if_neg h, List.cons_append, decodeNat]
      rw [if_neg (by omega), hrec]
      simp only [Option.some.injEq, Prod.mk.injEq]
      exact ⟨by omega, trivial⟩

theorem decodeNat_encodeNat (n : Nat) (ts : List Nat) :
    decodeNat (encodeNat n ++ ts) = some (n, ts) :=
  decodeNat_encodeNatFuel (n + 1) n (Nat.lt_succ_self n) ts

theorem decodeBytes_encodeBytes (b t : List Nat) :
    decodeBytes (encodeBytes b ++ t) = some (b, t) := by
  unfold encodeBytes decodeBytes
  rw [List.append_assoc, decodeNat_encodeNat b.length (b ++ t)]
  show (if b.length ≤ (b ++ t).length then
    some ((b ++ t).take b.length, (b ++ t).drop b.length) else none) = some (b, t)
  rw [if_pos (by simp), List.take_left, List.drop_left]

theorem decodeRat_encodeRat (q : ℚ) (t : List Nat) :
    decodeRat (encodeRat q ++ t) = some (q, t) := by
  unfold encodeRat
  simp only [List.cons_append, List.append_assoc]
  simp only [decodeRat, decodeNat_encodeNat]
  by_cases hq : q.num < 0
  · have hsign : (if q.num < 0 then (1 : Nat) else 0) = 1 := if_pos hq
    rw [hsign, if_pos rfl]
    have habs : ((q.num.natAbs : ℚ)) = -(q.num : ℚ) := by
      rw [Int.cast_natAbs]
      exact_mod_cast abs_of_neg hq
    rw [habs, neg_neg ((q.num : ℚ)), Rat.num_div_den]
  · have hsign : (if q.num < 0 then (1 : Nat) else 0) = 0 := if_neg hq
    rw [hsign, if_neg (by norm_num : ¬(0 : Nat) = 1)]
    have habs : ((q.num.natAbs : ℚ)) = (q.num : ℚ) := by
      rw [Int.cast_natAbs]
      exact_mod_cast abs_of_nonneg (not_lt.mp hq)
    rw [habs, Rat.num_div_den]

theorem decodeField_encodeField (f : FormField) (t : List Nat) :
    decodeField (encodeField f ++ t) = some (f, t) := by
  simp [decodeField, encodeField, decodeBytes_encodeBytes, List.append_assoc]

theorem decodeCount_encodeFields (fs : List FormField) (t : List Nat) :
    decodeCount decodeField fs.length ((fs.map encodeField).flatten ++ t) =
      some (fs, t) := by
  induction fs generalizing t with
  | nil => simp [decodeCount]
  | cons f rest ih =>
    simp [decodeCount, List.append_assoc, decodeField_encodeField, ih]

theorem decodeOptBytes_encodeOptBytes (o : Option (List Nat)) (t : List Nat) :
    decodeOptBytes (encodeOptBytes o ++ t) = some (o, t) := by
  cases o with
  | none => simp [encodeOptBytes, decodeOptBytes]
  | some b => simp [encodeOptBytes, decodeOptBytes, decodeBytes_encodeBytes]

theorem decodeF32_finite (q : ℚ) (t : List Nat) :
    decodeF32 (encodeF32 (.finite q) ++ t) = some (.finite q, t) := by
  simp [encodeF32, decodeF32, decodeRat_encodeRat]

theorem isFinite_exists {v : F32Val} (h : v.isFinite = true) :
    ∃ q, v = .finite q := by
  cases v with
  | finite q => exact ⟨q, rfl⟩
  | inf => simp [F32Val.isFinite] at h
  | negInf => simp [F32Val.isFinite] at h
  | nan => simp [F32Val.isFinite] at h

theorem decodeF32_nonfinite (v : F32Val) (hv : v.isFinite = false)
    (t : List Nat) : decodeF32 (encodeF32 v ++ t) = none := by
  cases v with
  | finite q => simp [F32Val.isFinite] at hv
  | inf => simp [encodeF32, decodeF32]
  | negInf => simp [encodeF32, decodeF32]
  | nan => simp [encodeF32, decodeF32]

theorem decodeSnapshot_encodeSnapshot (s : TabSnapshot) (t : List Nat)
    (h1 : s.scroll_position.1.isFinite = true)
    (h2 : s.scroll_position.2.isFinite = true) :
    decodeSnapshot (encodeSnapshot s ++ t) = some (s, t) := by
  obtain ⟨q1, hq1⟩ := isFinite_exists h1
  obtain ⟨q2, hq2⟩ := isFinite_exists h2
  simp only [encodeSnapshot, hq1, hq2, List.append_assoc]
  simp only [decodeSnapshot, decodeNat_encodeNat, decodeBytes_encodeBytes,
    decodeF32_finite, decodeCount_encodeFields, decodeOptBytes_encodeOptBytes,
    Option.bind_eq_bind, Option.some_bind]
  rw [← hq1, ← hq2]
  rfl

theorem decodeSnapshotFull_encodeSnapshot (s : TabSnapshot)
    (h1 : s.scroll_position.1.isFinite = true)
    (h2 : s.scroll_position.2.isFinite = true) :
    decodeSnapshotFull (encodeSnapshot s) = some s := by
  unfold decodeSnapshotFull
  have h := decodeSnapshot_encodeSnapshot s [] h1 h2
  rw [List.append_nil] at h
  rw [h]

set_option maxHeartbeats 1000000 in
theorem decodeSnapshot_encodeSnapshot_nonfinite (s : TabSnapshot)
    (h : s.scroll_position.1.isFinite = false ∨
      s.scroll_position.2.isFinite = false) :
    decodeSnapshot (encodeSnapshot s) = none := by
  rcases h with h | h
  · simp only [encodeSnapshot, List.append_assoc]
    simp only [decodeSnapshot, decodeNat_encodeNat, decodeBytes_encodeBytes,
      Option.bind_eq_bind, Option.some_bind, decodeF32_nonfinite _ h,
      Option.none_bind]
  · by_cases h1 : s.scroll_position.1.isFinite = true
    · obtain ⟨q1, hq1⟩ := isFinite_exists h1
      simp only [encodeSnapshot, hq1, List.append_assoc]
      simp only [decodeSnapshot, decodeNat_encodeNat, decodeBytes_encodeBytes,
        decodeF32_finite, Option.bind_eq_bind, Option.some_bind,
        decodeF32_nonfinite _ h, Option.none_bind]
    · have h1f : s.scroll_position.1.isFinite = false := by
        cases hx : s.scroll_position.1.isFinite
        · rfl
        · exact absurd hx h1
      simp only [encodeSnapshot, List.append_assoc]
      simp only [decodeSnapshot, decodeNat_encodeNat, decodeBytes_encodeBytes,
        Option.bind_eq_bind, Option.some_bind, decodeF32_nonfinite _ h1f,
        Option.none_bind]

theorem decodeSnapshotFull_encodeSnapshot_nonfinite (s : TabSnapshot)
    (h : s.scroll_position.1.isFinite = false ∨
      s.scroll_position.2.isFinite = false) :
    decodeSnapshotFull (encodeSnapshot s) = none := by
  unfold decodeSnapshotFull
  rw [decodeSnapshot_encodeSnapshot_nonfinite s h]

/-! ### CRC32 theory

`crc32Round` is an invertible linear map on 32-bit states, so the state
evolution of `crc32_checksum` is injective in the state; consequently
two inputs of equal length that differ in exactly one byte always have
different checksums (CRC32 detects every single-byte error). -/

theorem crc32Round_lt (c : Nat) (hc : c < 2 ^ 32) : crc32Round c < 2 ^ 32 := by
  unfold crc32Round
  split_ifs with h
  · exact Nat.xor_lt_two_pow (by omega) (by norm_num)
  · omega

theorem crc32Round_inj (c1 c2 : Nat) (h1 : c1 < 2 ^ 32) (h2 : c2 < 2 ^ 32)
    (he : crc32Round c1 = crc32Round c2) : c1 = c2 := by
  unfold crc32Round at he
  by_cases p1 : c1 % 2 = 1 <;> by_cases p2 : c2 % 2 = 1
  · rw [if_pos p1, if_pos p2] at he
    have hd : c1 / 2 = c2 / 2 := by
      have hcan := congrArg (fun x => x ^^^ 0xEDB88320) he
      simpa [Nat.xor_cancel_right] using hcan
    omega
  · rw [if_pos p1, if_neg p2] at he
    have hbit : ((c1 / 2) ^^^ 0xEDB88320).testBit 31 = true := by
      have hlow : (c1 / 2).testBit 31 = false :=
        Nat.testBit_eq_false_of_lt (by omega)
      rw [Nat.testBit_xor, hlow]
      decide
    rw [he] at hbit
    have hbit2 : (c2 / 2).testBit 31 = false :=
      Nat.testBit_eq_false_of_lt (by omega)
    rw [hbit2] at hbit
    exact Bool.noConfusion hbit
  · rw [if_neg p1, if_pos p2] at he
    have hbit : ((c2 / 2) ^^^ 0xEDB88320).testBit 31 = true := by
      have hlow : (c2 / 2).testBit 31 = false :=
        Nat.testBit_eq_false_of_lt (by omega)
      rw [Nat.testBit_xor, hlow]
      decide
    rw [← he] at hbit
    have hbit2 : (c1 / 2).testBit 31 = false :=
      Nat.testBit_eq_false_of_lt (by omega)
    rw [hbit2] at hbit
    exact Bool.noConfusion hbit
  · rw [if_neg p1, if_neg p2] at he
    omega

theorem crc32Iter_lt (k : Nat) : ∀ c, c < 2 ^ 32 → crc32Iter k c < 2 ^ 32 := by
  induction k with
  | zero => exact fun c hc => hc
  | succ n ih => exact fun c hc => ih (crc32Round c) (crc32Round_lt c hc)

theorem crc32Iter_inj (k : Nat) : ∀ c1 c2, c1 < 2 ^ 32 → c2 < 2 ^ 32 →
    crc32Iter k c1 = crc32Iter k c2 → c1 = c2 := by
  induction k with
  | zero => exact fun _ _ _ _ he => he
  | succ n ih =>
    intro c1 c2 h1 h2 he
    exact crc32Round_inj c1 c2 h1 h2
      (ih (crc32Round c1) (crc32Round c2) (crc32Round_lt c1 h1) (crc32Round_lt c2 h2) he)

theorem crc32Byte_lt (c b : Nat) (hc : c < 2 ^ 32) (hb : b < 2 ^ 32) :
    crc32Byte c b < 2 ^ 32 :=
  crc32Iter_lt 8 (c ^^^ b) (Nat.xor_lt_two_pow hc hb)

theorem crc32Byte_inj (c1 c2 b : Nat) (h1 : c1 < 2 ^ 32) (h2 : c2 < 2 ^ 32)
    (hb : b < 2 ^ 32) (he : crc32Byte c1 b = crc32Byte c2 b) : c1 = c2 := by
  have hxor : c1 ^^^ b = c2 ^^^ b :=
    crc32Iter_inj 8 (c1 ^^^ b) (c2 ^^^ b)
      (Nat.xor_lt_two_pow h1 hb) (Nat.xor_lt_two_pow h2 hb) he
  have hcan := congrArg (fun x => x ^^^ b) hxor
  simpa [Nat.xor_cancel_right] using hcan

theorem crcFold_lt : ∀ (l : List Nat), (∀ x ∈ l, x < 2 ^ 32) →
    ∀ c, c < 2 ^ 32 → l.foldl crc32Byte c < 2 ^ 32 := by
  intro l
  induction l with
  | nil => exact fun _ c hc => hc
  | cons x rest ih =>
    intro hl c hc
    exact ih (fun y hy => hl y (List.mem_cons_of_mem x hy)) (crc32Byte c x)
      (crc32Byte_lt c x hc (hl x (List.mem_cons_self x rest)))

theorem crcFold_inj : ∀ (l : List Nat), (∀ x ∈ l, x < 2 ^ 32) →
    ∀ c1 c2, c1 < 2 ^ 32 → c2 < 2 ^ 32 → c1 ≠ c2 →
      l.foldl crc32Byte c1 ≠ l.foldl crc32Byte c2 := by
  intro l
  induction l with
  | nil => exact fun _ _ _ _ _ hne => hne
  | cons x rest ih =>
    intro hl c1 c2 h1 h2 hne
    have hx : x < 2 ^ 32 := hl x (List.mem_cons_self x rest)
    exact ih (fun y hy => hl y (List.mem_cons_of_mem x hy))
      (crc32Byte c1 x) (crc32Byte c2 x)
      (crc32Byte_lt c1 x h1 hx) (crc32Byte_lt c2 x h2 hx)
      (fun he => hne (crc32Byte_inj c1 c2 x h1 h2 hx he))

/-- CRC32 detects every single-byte difference: two byte strings of
equal length that agree everywhere except at one position have
different checksums. -/
theorem crc32_single_byte_neq (pre suf : List Nat) (b0 b1 : Nat)
    (hpre : ∀ x ∈ pre, x < 2 ^ 32) (hsuf : ∀ x ∈ suf, x < 2 ^ 32)
    (hb0 : b0 < 2 ^ 32) (hb1 : b1 < 2 ^ 32) (hne : b0 ≠ b1) :
    crc32_checksum (pre ++ b0 :: suf) ≠ crc32_checksum (pre ++ b1 :: suf) := by
  unfold crc32_checksum
  intro he
  have he2 : (pre ++ b0 :: suf).foldl crc32Byte 0xFFFFFFFF =
      (pre ++ b1 :: suf).foldl crc32Byte 0xFFFFFFFF := by
    have hcan := congrArg (fun x => x ^^^ 0xFFFFFFFF) he
    simpa [Nat.xor_cancel_right] using hcan
  rw [List.foldl_append, List.foldl_append] at he2
  simp only [List.foldl_cons] at he2
  have hcb : pre.foldl crc32Byte 0xFFFFFFFF < 2 ^ 32 :=
    crcFold_lt pre hpre 0xFFFFFFFF (by norm_num)
  have hstart : crc32Byte (pre.foldl crc32Byte 0xFFFFFFFF) b0 ≠
      crc32Byte (pre.foldl crc32Byte 0xFFFFFFFF) b1 := by
    intro hx
    have hxor : (pre.foldl crc32Byte 0xFFFFFFFF) ^^^ b0 =
        (pre.foldl crc32Byte 0xFFFFFFFF) ^^^ b1 :=
      crc32Iter_inj 8 _ _ (Nat.xor_lt_two_pow hcb hb0) (Nat.xor_lt_two_pow hcb hb1) hx
    have hcan := congrArg (fun x => (pre.foldl crc32Byte 0xFFFFFFFF) ^^^ x) hxor
    simp only [Nat.xor_cancel_left] at hcan
    exact hne hcan
  exact crcFold_inj suf hsuf _ _
    (crc32Byte_lt _ b0 hcb hb0) (crc32Byte_lt _ b1 hcb hb1) hstart he2

/-- C2 (amended): for every `TabSnapshot S` whose scroll coordinates are
finite f32 values (including one with empty `form_data`, empty
`dom_snapshot`, and `js_heap_snapshot = None`) and any compression
scheme that round-trips (zstd's contract), `hibernate(S)` followed by
`hydrate(S.tab_id)` succeeds and returns a snapshot equal to `S` in
every field; if either scroll coordinate is non-finite, hibernate still
succeeds (serde_json serializes the float as JSON `null`) but hydrate
then fails with a `Serialization` error instead of returning the
snapshot. -/
theorem claim_C2_roundtrip (compress : List Nat → List Nat)
    (decompress : List Nat → Option (List Nat)) (st : ColdStore) (S : TabSnapshot)
    (hcd : ∀ x, decompress (compress x) = some x) :
    (S.scroll_position.1.isFinite = true → S.scroll_position.2.isFinite = true →
      hydrate decompress (hibernate compress st S) S.tab_id = .ok S) ∧
    (S.scroll_position.1.isFinite = false ∨ S.scroll_position.2.isFinite = false →
      hydrate decompress (hibernate compress st S) S.tab_id =
        .error .Serialization) := by
  have hfile : hydrate decompress (hibernate compress st S) S.tab_id =
      (match decodeSnapshotFull (encodeSnapshot S) with
        | some s => Except.ok s
        | none => Except.error HibernationError.Serialization) := by
    unfold hydrate hibernate
    rw [if_pos rfl]
    show hydrateFile decompress (hibernateFile compress S) = _
    unfold hydrateFile hibernateFile mkHeader
    rw [if_neg (fun h => h rfl), if_neg (fun h => h rfl), hcd (encodeSnapshot S)]
    show (if crc32_checksum (encodeSnapshot S) ≠ crc32_checksum (encodeSnapshot S)
      then Except.error HibernationError.InvalidFile
      else match decodeSnapshotFull (encodeSnapshot S) with
        | some s => Except.ok s
        | none => Except.error HibernationError.Serialization) = _
    rw [if_neg (fun h => h rfl)]
  constructor
  · intro h1 h2
    rw [hfile, decodeSnapshotFull_encodeSnapshot S h1 h2]
  · intro h
    rw [hfile, decodeSnapshotFull_encodeSnapshot_nonfinite S h]

/-- Witness for C2: the round-trip at `testSnapshot` (finite scroll
coordinates) with the identity compressor. -/
theorem claim_C2_witness :
    hydrate some (hibernate (fun x => x) (fun _ => none) testSnapshot)
      testSnapshot.tab_id = .ok testSnapshot :=
  (claim_C2_roundtrip (fun x => x) some (fun _ => none) testSnapshot
    (fun _ => rfl)).1 rfl rfl

/-- C2 counterexample: `badSnapshot` carries a NaN scroll coordinate;
hibernate with the identity compressor succeeds, but hydrate of the
stored file returns a `Serialization` error rather than the snapshot,
so the unconditional round-trip claim fails. -/
theorem claim_C2_counterexample :
    badSnapshot.scroll_position.1 = F32Val.nan ∧
    hydrate some (hibernate (fun x => x) (fun _ => none) badSnapshot)
      badSnapshot.tab_id = .error .Serialization ∧
    (Except.error HibernationError.Serialization ≠
      (Except.ok badSnapshot : Except HibernationError TabSnapshot)) := by
  refine ⟨rfl, ?_, fun h => Except.noConfusion h⟩
  set_option maxRecDepth 100000 in rfl

/-- C3: the file-system trace of `hibernate` does write the serialized,
checksummed, compressed bytes through a temp file and finishes with the
complete header-plus-payload file at the final path and the temp file
removed — but the final path is created and written *in place* (no
atomic rename), so a crash after the fourth operation (header written,
payload not yet copied) leaves a corrupt header-only file at the final
path, contradicting the crash-atomicity the claim (and the module's own
"Atomic writes to prevent corruption" documentation) promises. -/
theorem claim_C3_no_atomic_replace :
    (fsRun ⟨none, none⟩ (hibernateTrace (fun x => x) testSnapshot)).finalContent =
      some (completeFileBytes (fun x => x) testSnapshot) ∧
    (fsRun ⟨none, none⟩ (hibernateTrace (fun x => x) testSnapshot)).tempContent = none ∧
    (fsRun ⟨none, none⟩
        ((hibernateTrace (fun x => x) testSnapshot).take 4)).finalContent =
      some (headerBytes (mkHeader testSnapshot (encodeSnapshot testSnapshot))) ∧
    (fsRun ⟨none, none⟩
        ((hibernateTrace (fun x => x) testSnapshot).take 4)).finalContent ≠ none ∧
    (fsRun ⟨none, none⟩
        ((hibernateTrace (fun x => x) testSnapshot).take 4)).finalContent ≠
      some (completeFileBytes (fun x => x) testSnapshot) := by
  refine ⟨?_, ?_, ?_, ?_, ?_⟩ <;> (set_option maxRecDepth 100000 in decide)

/-- C4 (amended): corruption of the stored compressed payload is caught
by the pipeline *only insofar as CRC32 can catch it* — the header
checksum is `crc32_checksum` of the *uncompressed* serialized bytes; a
decompression failure yields a `Compression` error; decompressed bytes
whose checksum differs from the header yield `InvalidFile` *before* any
deserialization; corruption that reaches the checksum as a single
changed byte is always rejected (CRC32 detects every single-byte
error); a successful hydrate must have passed the checksum gate, and
decompressing to the original bytes returns exactly the original
snapshot (finite scroll coordinates). A corrupted payload whose
decompression CRC32-collides with the original can however hydrate
successfully into a *different* snapshot (see the counterexample), so
corruption detection is not universal. -/
theorem claim_C4_corruption_detection (compress : List Nat → List Nat)
    (decompress : List Nat → Option (List Nat)) (S : TabSnapshot)
    (payloadX : List Nat) :
    (hibernateFile compress S).1.checksum = crc32_checksum (encodeSnapshot S) ∧
    (decompress payloadX = none →
      hydrateFile decompress ((hibernateFile compress S).1, payloadX) =
        .error .Compression) ∧
    (∀ d, decompress payloadX = some d →
      crc32_checksum d ≠ crc32_checksum (encodeSnapshot S) →
      hydrateFile decompress ((hibernateFile compress S).1, payloadX) =
        .error .InvalidFile) ∧
    (∀ d pre b0 b1 suf, decompress payloadX = some d →
      encodeSnapshot S = pre ++ b0 :: suf → d = pre ++ b1 :: suf → b0 ≠ b1 →
      (∀ x ∈ pre, x < 2 ^ 32) → (∀ x ∈ suf, x < 2 ^ 32) →
      b0 < 2 ^ 32 → b1 < 2 ^ 32 →
      hydrateFile decompress ((hibernateFile compress S).1, payloadX) =
        .error .InvalidFile) ∧
    (∀ s, hydrateFile decompress ((hibernateFile compress S).1, payloadX) = .ok s →
      ∃ d, decompress payloadX = some d ∧
        crc32_checksum d = crc32_checksum (encodeSnapshot S) ∧
        decodeSnapshotFull d = some s) ∧
    (S.scroll_position.1.isFinite = true → S.scroll_position.2.isFinite = true →
      decompress payloadX = some (encodeSnapshot S) →
      hydrateFile decompress ((hibernateFile compress S).1, payloadX) = .ok S) := by
  refine ⟨rfl, ?_, ?_, ?_, ?_, ?_⟩
  · intro hd
    unfold hydrateFile hibernateFile mkHeader
    rw [if_neg (fun h => h rfl), if_neg (fun h => h rfl), hd]
  · intro d hd hneq
    unfold hydrateFile hibernateFile mkHeader
    rw [if_neg (fun h => h rfl), if_neg (fun h => h rfl), hd]
    show (if crc32_checksum d ≠ crc32_checksum (encodeSnapshot S)
      then Except.error HibernationError.InvalidFile
      else _) = Except.error HibernationError.InvalidFile
    rw [if_pos hneq]
  · intro d pre b0 b1 suf hd hS hdEq hne hpre hsuf hb0 hb1
    have hneq : crc32_checksum d ≠ crc32_checksum (encodeSnapshot S) := by
      rw [hS, hdEq]
      exact (crc32_single_byte_neq pre suf b0 b1 hpre hsuf hb0 hb1 hne).symm
    unfold hydrateFile hibernateFile mkHeader
    rw [if_neg (fun h => h rfl), if_neg (fun h => h rfl), hd]
    show (if crc32_checksum d ≠ crc32_checksum (encodeSnapshot S)
      then Except.error HibernationError.InvalidFile
      else _) = Except.error HibernationError.InvalidFile
    rw [if_pos hneq]
  · intro s hok
    unfold hydrateFile hibernateFile mkHeader at hok
    rw [if_neg (fun h => h rfl), if_neg (fun h => h rfl)] at hok
    cases hd : decompress payloadX with
    | none => rw [hd] at hok; exact Except.noConfusion hok
    | some d =>
      rw [hd] at hok
      dsimp only at hok
      refine ⟨d, rfl, ?_, ?_⟩
      · by_contra hneq
        rw [if_pos hneq] at hok
        exact Except.noConfusion hok
      · by_cases hneq : crc32_checksum d ≠ crc32_checksum (encodeSnapshot S)
        · rw [if_pos hneq] at hok
          exact Except.noConfusion hok
        · rw [if_neg hneq] at hok
          cases hdec : decodeSnapshotFull d with
          | none => rw [hdec] at hok; exact Except.noConfusion hok
          | some s2 =>
            rw [hdec] at hok
            cases hok
            rfl
  · intro hf1 hf2 hd
    unfold hydrateFile hibernateFile mkHeader
    rw [if_neg (fun h => h rfl), if_neg (fun h => h rfl), hd]
    show (if crc32_checksum (encodeSnapshot S) ≠ crc32_checksum (encodeSnapshot S)
      then Except.error HibernationError.InvalidFile
      else match decodeSnapshotFull (encodeSnapshot S) with
        | some s => Except.ok s
        | none => Except.error HibernationError.Serialization) = Except.ok S
    rw [if_neg (fun h => h rfl), decodeSnapshotFull_encodeSnapshot S hf1 hf2]

theorem cexDecompress_cexCompress : ∀ x, cexDecompress (cexCompress x) = some x := by
  intro x
  unfold cexCompress
  split_ifs with h1 h2
  · subst h1
    rfl
  · subst h2
    rfl
  · rfl

theorem hydrateFile_collision (compress : List Nat → List Nat)
    (decompress : List Nat → Option (List Nat)) (S S2 : TabSnapshot)
    (payloadX : List Nat) (hd : decompress payloadX = some (encodeSnapshot S2))
    (hcrc : crc32_checksum (encodeSnapshot S2) = crc32_checksum (encodeSnapshot S))
    (hf1 : S2.scroll_position.1.isFinite = true)
    (hf2 : S2.scroll_position.2.isFinite = true) :
    hydrateFile decompress ((hibernateFile compress S).1, payloadX) = .ok S2 := by
  unfold hydrateFile hibernateFile mkHeader
  rw [if_neg (fun h => h rfl), if_neg (fun h => h rfl), hd]
  show (if crc32_checksum (encodeSnapshot S2) ≠ crc32_checksum (encodeSnapshot S)
    then Except.error HibernationError.InvalidFile
    else match decodeSnapshotFull (encodeSnapshot S2) with
      | some s => Except.ok s
      | none => Except.error HibernationError.Serialization) = Except.ok S2
  rw [if_neg (fun h => h hcrc), decodeSnapshotFull_encodeSnapshot S2 hf1 hf2]

/-- C4 counterexample: under the round-tripping codec
`cexCompress`/`cexDecompress` (a legitimate instantiation of the
compression parameter), `snapA` hibernates to the single-byte payload
`[0]`; flipping that byte to `[1]` makes hydrate *succeed* with the
different snapshot `snapB`, because the corrupted payload decompresses
to `snapB`'s serialization, whose CRC32 collides with `snapA`'s — so a
single corrupted payload byte neither errors nor returns the original
snapshot. -/
theorem claim_C4_counterexample :
    cexDecompress (cexCompress (encodeSnapshot snapA)) =
      some (encodeSnapshot snapA) ∧
    cexDecompress (cexCompress (encodeSnapshot snapB)) =
      some (encodeSnapshot snapB) ∧
    (hibernateFile cexCompress snapA).2 = [0] ∧
    crc32_checksum (encodeSnapshot snapB) = crc32_checksum (encodeSnapshot snapA) ∧
    encodeSnapshot snapB ≠ encodeSnapshot snapA ∧
    hydrateFile cexDecompress ((hibernateFile cexCompress snapA).1, [1]) =
      .ok snapB ∧
    snapB ≠ snapA := by
  have hcrc : crc32_checksum (encodeSnapshot snapB) =
      crc32_checksum (encodeSnapshot snapA) := by
    set_option maxRecDepth 100000 in decide
  refine ⟨set_option maxRecDepth 100000 in rfl,
    cexDecompress_cexCompress (encodeSnapshot snapB),
    rfl, hcrc, set_option maxRecDepth 100000 in by decide, ?_,
    by decide⟩
  exact hydrateFile_collision cexCompress cexDecompress snapA snapB [1] rfl hcrc
    rfl rfl

/-- Witness for C4: flipping the first byte of the serialized form of
`testSnapshot` (3 → 4) as the decompressed result makes hydrate reject
the file with `InvalidFile`. -/
theorem claim_C4_witness :
    hydrateFile (fun _ => some (4 :: (encodeSnapshot testSnapshot).tail))
      ((hibernateFile (fun x => x) testSnapshot).1, [0]) = .error .InvalidFile :=
  (claim_C4_corruption_detection (fun x => x)
    (fun _ => some (4 :: (encodeSnapshot testSnapshot).tail)) testSnapshot
    [0]).2.2.2.1
    (4 :: (encodeSnapshot testSnapshot).tail) [] 3 4
    (encodeSnapshot testSnapshot).tail rfl (by decide) (by decide) (by decide)
    (by decide) (by decide) (by decide) (by decide)

end FosWB
